import Mathlib

/-!
# Ferdek X11 graphics layer

A shallow embedding of `src/graphics_x11.c`: the process-wide globals become a
`State` record, every C function becomes a function on `State`, and the calls
the code makes to Xlib and to the allocator are collected in a trace of
`Call`s.  What the host answers (`XOpenDisplay`, `XCreateWindow`, `calloc`,
...) is a parameter of `ferdek_window_open`.

Functions that read or write heap memory return `Option`: `none` stands for
an access outside a live block (undefined behaviour in C).
-/

namespace Ferdek

/-! ## Machine integers -/

/-- Value of a C `int` expression: 32-bit two-complement wrap of the exact result. -/
def wrapInt (v : Int) : Int := (v + 2147483648) % 4294967296 - 2147483648

/-- Conversion of an `int` to a 64-bit `size_t`. -/
def toSize (v : Int) : Nat := (v % 18446744073709551616).toNat

/-! ## Heap blocks -/

/-- Contents of a C pointer variable together with the block it refers to:
`null`, a live block with its cells, or a block that has been handed to `free`
while the variable still holds its address. -/
inductive Ptr where
  | null
  | block (addr : Nat) (cells : List Nat)
  | freed (addr : Nat)
deriving DecidableEq, Repr

namespace Ptr

/-- C test `!p`. -/
def isNull : Ptr → Bool
  | null => true
  | _ => false

/-- Address held by the pointer variable (0 for `NULL`). -/
def addr : Ptr → Nat
  | null => 0
  | block a _ => a
  | freed a => a

/-- Read `p[i]`. -/
def load : Ptr → Int → Option Nat
  | block _ cells, i => if 0 ≤ i then cells[i.toNat]? else none
  | _, _ => none

/-- Write `p[i] = v`. -/
def store : Ptr → Int → Nat → Option Ptr
  | block a cells, i, v =>
    if 0 ≤ i ∧ i.toNat < cells.length then some (block a (cells.set i.toNat v)) else none
  | _, _, _ => none

/-- The call `memset(p, v, n)`. -/
def fill : Ptr → Nat → Nat → Option Ptr
  | block a cells, v, n =>
    if n ≤ cells.length then some (block a (List.replicate n v ++ cells.drop n)) else none
  | _, _, _ => none

/-- State of the pointer variable after `free(p)`: the variable keeps its value. -/
def release : Ptr → Ptr
  | block a _ => freed a
  | p => p

end Ptr

/-! ## Globals -/

/-- The C array `unsigned long palette[256]`. -/
abbrev Palette := { l : List Nat // l.length = 256 }

namespace Palette

/-- Assignment `palette[i] = v`. -/
def set (p : Palette) (i v : Nat) : Palette :=
  ⟨p.1.set i v, by rw [List.length_set]; exact p.2⟩

/-- Lookup `palette[c]` for an `unsigned char` index. -/
def get (p : Palette) (c : Nat) : Nat := p.1.getD (c % 256) 0

/-- Static storage is zero-initialised. -/
def zero : Palette := ⟨List.replicate 256 0, List.length_replicate 256 0⟩

end Palette

/-- An `XImage` structure: its address and its `data` field. -/
structure XImage where
  id : Nat
  data : Ptr
deriving DecidableEq, Repr

/-- The file-level globals of `graphics_x11.c`. Handles are numbers, 0 is `NULL`. -/
structure State where
  display : Nat
  window : Nat
  gc : Nat
  ximage : Option XImage
  framebuffer : Ptr
  fb_width : Int
  fb_height : Int
  palette : Palette
deriving DecidableEq

/-- Globals at program start. -/
def State.init : State :=
  { display := 0, window := 0, gc := 0, ximage := none, framebuffer := Ptr.null,
    fb_width := 0, fb_height := 0, palette := Palette.zero }

/-! ## Host calls -/

/-- Calls made to Xlib, to the allocator and to stdio, with their arguments
(and, for the creating calls, their result). -/
inductive Call where
  | XOpenDisplay (dpy : Nat)
  | XCreateWindow (dpy : Nat) (w h : Int) (win : Nat)
  | XCloseDisplay (dpy : Nat)
  | XStoreName (dpy win : Nat) (title : String)
  | XCreateGC (dpy win gc : Nat)
  | XFreeGC (dpy gc : Nat)
  | XDestroyWindow (dpy win : Nat)
  | calloc (n addr : Nat)
  | malloc (n addr : Nat)
  | free (addr : Nat)
  | XCreateImage (dpy data : Nat) (w h : Int) (img : Nat)
  | XDestroyImage (img : Nat)
  | XMapWindow (dpy win : Nat)
  | XFlush (dpy : Nat)
  | XSetForeground (dpy gc color : Nat)
  | XFillRectangle (dpy win gc : Nat) (x y : Int) (w h : Nat)
  | XPending (dpy pending : Nat)
  | XNextEvent (dpy : Nat)
  | stderrNoDisplay
  | printOpened (w h : Int) (title : String)
  | printClosed
deriving DecidableEq, Repr

/-- Answers of the host to one run of `ferdek_window_open`; 0 is a `NULL` result. -/
structure Host where
  dpy : Nat
  win : Nat
  gcv : Nat
  fb : Nat
  imgData : Nat
  img : Nat
deriving DecidableEq, Repr

/-! ## The functions of `graphics_x11.c` -/

/-- Packed colour `(r << 16) | (g << 8) | b`. -/
def packRGB (r g b : Nat) : Nat := (r <<< 16) ||| (g <<< 8) ||| b

/-- Source: `init_default_palette`. -/
def init_default_palette (s : State) : State :=
  { s with palette := (List.range 256).foldl (fun p i => p.set i (packRGB i i i)) s.palette }

/-- Source: `ferdek_window_open`. Returns the globals, the C return value and the calls made. -/
def ferdek_window_open (s : State) (host : Host) (width height : Int) (title : String) :
    State × Int × List Call :=
  let s := { s with display := host.dpy }
  let t := [Call.XOpenDisplay host.dpy]
  if s.display = 0 then (s, 0, t ++ [Call.stderrNoDisplay]) else
  let s := { s with window := host.win }
  let t := t ++ [Call.XCreateWindow s.display (wrapInt (width * 4)) (wrapInt (height * 4)) host.win]
  if s.window = 0 then (s, 0, t ++ [Call.XCloseDisplay s.display]) else
  let t := t ++ [Call.XStoreName s.display s.window title]
  let s := { s with gc := host.gcv }
  let t := t ++ [Call.XCreateGC s.display s.window host.gcv]
  let n := toSize (wrapInt (width * height))
  let s := { s with fb_width := width, fb_height := height,
                    framebuffer := if host.fb = 0 then Ptr.null
                                   else Ptr.block host.fb (List.replicate n 0) }
  let t := t ++ [Call.calloc n host.fb]
  if s.framebuffer.isNull then
    (s, 0, t ++ [Call.XFreeGC s.display s.gc, Call.XDestroyWindow s.display s.window,
                 Call.XCloseDisplay s.display]) else
  let m := toSize (wrapInt (wrapInt (width * height) * 4))
  let data := if host.imgData = 0 then Ptr.null
              else Ptr.block host.imgData (List.replicate (m / 4) 0)
  let s := { s with ximage := if host.img = 0 then none else some { id := host.img, data := data } }
  let t := t ++ [Call.malloc m host.imgData,
                 Call.XCreateImage s.display host.imgData width height host.img]
  if s.ximage.isNone then
    ({ s with framebuffer := s.framebuffer.release }, 0,
      t ++ [Call.free s.framebuffer.addr, Call.XFreeGC s.display s.gc,
            Call.XDestroyWindow s.display s.window, Call.XCloseDisplay s.display]) else
  let s := init_default_palette s
  (s, 1, t ++ [Call.XMapWindow s.display s.window, Call.XFlush s.display,
               Call.printOpened width height title])

/-- Source: `ferdek_palette_set`; `pal = none` is a `NULL` argument, reading past the
end of the buffer is `none`. -/
def ferdek_palette_set (s : State) (pal : Option (List Nat)) : Option State :=
  match pal with
  | none => some s
  | some bytes =>
    ((List.range 256).foldlM (fun (p : Palette) i => do
        let r ← bytes[i * 3 + 0]?
        let g ← bytes[i * 3 + 1]?
        let b ← bytes[i * 3 + 2]?
        pure (p.set i (packRGB (r % 256) (g % 256) (b % 256)))) s.palette).map
      (fun p => { s with palette := p })

/-- Source: `ferdek_pixel_draw`; `color` is converted to `unsigned char`. -/
def ferdek_pixel_draw (s : State) (x y : Int) (color : Nat) : Option State :=
  if s.framebuffer.isNull ∨ x < 0 ∨ x ≥ s.fb_width ∨ y < 0 ∨ y ≥ s.fb_height then some s
  else (s.framebuffer.store (wrapInt (wrapInt (y * s.fb_width) + x)) (color % 256)).map
    (fun p => { s with framebuffer := p })

/-- Source: `ferdek_framebuffer_get`. -/
def ferdek_framebuffer_get (s : State) (x y : Int) : Option Nat :=
  if s.framebuffer.isNull ∨ x < 0 ∨ x ≥ s.fb_width ∨ y < 0 ∨ y ≥ s.fb_height then some 0
  else s.framebuffer.load (wrapInt (wrapInt (y * s.fb_width) + x))

/-- Source: `ferdek_screen_clear`. -/
def ferdek_screen_clear (s : State) (color : Nat) : Option State :=
  if s.framebuffer.isNull then some s
  else (s.framebuffer.fill (color % 256) (toSize (wrapInt (s.fb_width * s.fb_height)))).map
    (fun p => { s with framebuffer := p })

/-- Source: `ferdek_screen_refresh`. Returns the globals and the calls made. -/
def ferdek_screen_refresh (s : State) : Option (State × List Call) :=
  match s.ximage with
  | none => some (s, [])
  | some img =>
    if s.display = 0 ∨ s.window = 0 ∨ s.framebuffer.isNull then some (s, []) else do
      let data ← (List.range (wrapInt (s.fb_width * s.fb_height)).toNat).foldlM
        (fun (d : Ptr) (i : Nat) => do
          let c ← s.framebuffer.load i
          d.store i (s.palette.get c % 4294967296)) img.data
      let t ← (List.range s.fb_height.toNat).foldlM
        (fun (acc : List Call) (sy : Nat) =>
          (List.range s.fb_width.toNat).foldlM
            (fun (acc : List Call) (sx : Nat) => do
              let c ← s.framebuffer.load (wrapInt (wrapInt (sy * s.fb_width) + sx))
              pure (acc ++ [Call.XSetForeground s.display s.gc (s.palette.get c),
                            Call.XFillRectangle s.display s.window s.gc
                              (wrapInt (sx * 4)) (wrapInt (sy * 4)) 4 4])) acc) []
      pure ({ s with ximage := some { img with data := data } }, t ++ [Call.XFlush s.display])

/-- Source: `ferdek_window_close`. Returns the globals and the calls made. Every release
the code makes is recorded in the trace, also one of a block or handle that was released
before (`Ptr.freed`, a stale id); `track` finds such a second release. -/
def ferdek_window_close (s : State) : State × List Call :=
  let r : State × List Call := (s, [])
  let r := match r.1.ximage with
    | some img =>
      ({ r.1 with ximage := none },
        r.2 ++ (if img.data.isNull then [] else [Call.free img.data.addr])
            ++ [Call.XDestroyImage img.id])
    | none => r
  let r := if r.1.framebuffer.isNull then r
    else ({ r.1 with framebuffer := Ptr.null }, r.2 ++ [Call.free r.1.framebuffer.addr])
  let r := if r.1.gc = 0 then r
    else ({ r.1 with gc := 0 }, r.2 ++ [Call.XFreeGC r.1.display r.1.gc])
  let r := if r.1.window = 0 then r
    else ({ r.1 with window := 0 }, r.2 ++ [Call.XDestroyWindow r.1.display r.1.window])
  let r := if r.1.display = 0 then r
    else ({ r.1 with display := 0 }, r.2 ++ [Call.XCloseDisplay r.1.display])
  (r.1, r.2 ++ [Call.printClosed])

/-! ## Session predicates and resource accounting -/

/-- The session holds a live framebuffer of `width * height` cells, the product being
representable as an `int` (it is the `int` value `ferdek_window_open` passes to
`calloc`). -/
def HasFramebuffer (s : State) (width height : Int) : Prop :=
  s.fb_width = width ∧ s.fb_height = height ∧ width * height < 2147483648 ∧
  ∃ addr cells, s.framebuffer = Ptr.block addr cells ∧ (cells.length : Int) = width * height

/-- None of display, window, drawing context, framebuffer and image is recorded as held. -/
def NotOpen (s : State) : Prop :=
  s.display = 0 ∧ s.window = 0 ∧ s.gc = 0 ∧ s.framebuffer = Ptr.null ∧ s.ximage = none

instance (s : State) : Decidable (NotOpen s) := by unfold NotOpen; infer_instance

/-- Kinds of resource the session acquires. -/
inductive Res where
  | display | window | gc | memory | image
deriving DecidableEq, Repr

/-- Resource handed out by a call, if any (a `NULL` / 0 result hands out nothing). -/
def Call.acquires : Call → Option (Res × Nat)
  | Call.XOpenDisplay d => if d = 0 then none else some (Res.display, d)
  | Call.XCreateWindow _ _ _ w => if w = 0 then none else some (Res.window, w)
  | Call.XCreateGC _ _ g => if g = 0 then none else some (Res.gc, g)
  | Call.calloc _ a => if a = 0 then none else some (Res.memory, a)
  | Call.malloc _ a => if a = 0 then none else some (Res.memory, a)
  | Call.XCreateImage _ _ _ _ i => if i = 0 then none else some (Res.image, i)
  | _ => none

/-- Resource given back by a call, if any. -/
def Call.releases : Call → Option (Res × Nat)
  | Call.XCloseDisplay d => some (Res.display, d)
  | Call.XDestroyWindow _ w => some (Res.window, w)
  | Call.XFreeGC _ g => some (Res.gc, g)
  | Call.free a => if a = 0 then none else some (Res.memory, a)
  | Call.XDestroyImage i => some (Res.image, i)
  | _ => none

/-- Replays a trace against the list of resources currently held: `none` as soon as a
call releases a resource that is not held (a second release), else the resources
still held at the end. -/
def track (live : List (Res × Nat)) : List Call → Option (List (Res × Nat))
  | [] => some live
  | c :: cs =>
    match c.releases with
    | some r => if r ∈ live then track (live.erase r) cs else none
    | none =>
      match c.acquires with
      | some r => track (r :: live) cs
      | none => track live cs

/-- The release calls of a trace. -/
def releaseCalls (t : List Call) : List Call := t.filter (fun c => c.releases.isSome)

/-! ## Sample inputs -/

/-- A host that grants every request. -/
def sampleHost : Host := { dpy := 1, win := 2, gcv := 3, fb := 4, imgData := 5, img := 6 }

/-- The session after a successful `ferdek_window_open(2, 2, "t")` from program start. -/
def sampleSession : State := (ferdek_window_open State.init sampleHost 2 2 "t").1

/-- A host on which `calloc` fails while every Xlib request is granted. -/
def hostNoFramebuffer : Host := { sampleHost with fb := 0 }

/-- A host on which `XCreateImage` fails after `malloc` succeeded. -/
def hostNoImage : Host := { sampleHost with img := 0 }

/-- The table a 768-byte buffer describes: entry `i` packs bytes `3i`, `3i+1`, `3i+2`. -/
def packedTable (pal : List Nat) : List Nat :=
  (List.range 256).map (fun i =>
    packRGB (pal.getD (i * 3 + 0) 0 % 256) (pal.getD (i * 3 + 1) 0 % 256)
      (pal.getD (i * 3 + 2) 0 % 256))

/-- A 768-byte buffer: byte `k` is `k % 256`. -/
def sampleBytes : List Nat := (List.range 768).map (fun k => k % 256)

/-! ## Input events -/

/-- Event type codes of `X11/X.h`. -/
def KeyPress : Nat := 2

/-- Event type code of `X11/X.h`. -/
def KeyRelease : Nat := 3

/-- Event type code of `X11/X.h`. -/
def ButtonPress : Nat := 4

/-- Event type code of `X11/X.h`. -/
def ClientMessage : Nat := 33

/-- The parts of an `XEvent` that `ferdek_event_poll` looks at: `type`, the key symbol
`XLookupKeysym(&xev.xkey, 0)` yields for it (a `KeySym`, unsigned long), and the
`xbutton` fields `button` (unsigned int), `x`, `y` (int). -/
structure XEvent where
  type : Nat
  keysym : Nat
  button : Nat
  x : Int
  y : Int
deriving DecidableEq, Repr

/-- The C struct `ferdek_event_t`. -/
structure ferdek_event_t where
  type : Int
  key : Int
  x : Int
  y : Int
deriving DecidableEq, Repr

/-- What a call of `ferdek_event_poll` leaves behind: globals, returned event, the
notifications still queued at the host, and the calls made. -/
structure PollResult where
  state : State
  event : ferdek_event_t
  queue : List XEvent
  calls : List Call
deriving DecidableEq

/-- The `while (XPending(display))` loop of `ferdek_event_poll`, over the notifications
queued at the host, oldest first; `ev` is the local `ev`, `calls` the calls made so far. -/
def ferdek_event_poll_loop (s : State) (ev : ferdek_event_t) (calls : List Call) :
    List XEvent → PollResult
  | [] => { state := s, event := ev, queue := [], calls := calls ++ [Call.XPending s.display 0] }
  | xev :: rest =>
    let calls := calls ++ [Call.XPending s.display (rest.length + 1), Call.XNextEvent s.display]
    if xev.type = KeyPress then
      { state := s, event := { ev with type := 1, key := wrapInt xev.keysym },
        queue := rest, calls := calls }
    else if xev.type = KeyRelease then
      { state := s, event := { ev with type := 2, key := wrapInt xev.keysym },
        queue := rest, calls := calls }
    else if xev.type = ButtonPress then
      { state := s,
        event := { ev with type := 3, key := wrapInt xev.button,
                           x := wrapInt (Int.tdiv xev.x 4), y := wrapInt (Int.tdiv xev.y 4) },
        queue := rest, calls := calls }
    else if xev.type = ClientMessage then
      { state := s, event := { ev with type := 4 }, queue := rest, calls := calls }
    else ferdek_event_poll_loop s ev calls rest

/-- Source: `ferdek_event_poll`; `queue` holds the notifications queued at the host. -/
def ferdek_event_poll (s : State) (queue : List XEvent) : PollResult :=
  let ev : ferdek_event_t := { type := 0, key := 0, x := 0, y := 0 }
  if s.display = 0 then { state := s, event := ev, queue := queue, calls := [] }
  else ferdek_event_poll_loop s ev [] queue

/-- Source: `caml_ferdek_event_poll` of `graphics_stubs.c`: the fields of the tuple it
allocates, in index order. The boxing macro `Val_int` of the OCaml runtime headers is a
parameter. -/
def caml_ferdek_event_poll {V : Type} (Val_int : Int → V) (s : State) (queue : List XEvent) :
    List V :=
  let ev := (ferdek_event_poll s queue).event
  [Val_int ev.type, Val_int ev.key, Val_int ev.x, Val_int ev.y]

/-- A notification is one of the four kinds the switch of `ferdek_event_poll` handles. -/
def XEvent.translatable (e : XEvent) : Bool :=
  e.type = KeyPress || e.type = KeyRelease || e.type = ButtonPress || e.type = ClientMessage

/-- The event the switch of `ferdek_event_poll` builds from a notification it handles. -/
def XEvent.translate (e : XEvent) : ferdek_event_t :=
  (ferdek_event_poll_loop State.init { type := 0, key := 0, x := 0, y := 0 } [] [e]).event

/-- A button press of button 1 at window pixel (40, 40). -/
def samplePress : XEvent := { type := ButtonPress, keysym := 0, button := 1, x := 40, y := 40 }

/-- A pointer-motion notification (type 6), which the switch does not handle. -/
def sampleMotion : XEvent := { type := 6, keysym := 0, button := 0, x := 7, y := 9 }

/-- A host on which `malloc` fails while every other request is granted. -/
def hostNoImageData : Host := { sampleHost with imgData := 0 }

/-- The session after a successful `ferdek_window_open(64, 48, "t")` from program start. -/
def session64x48 : State := (ferdek_window_open State.init sampleHost 64 48 "t").1

/-- The event `{0, 0, 0, 0}` that `ferdek_event_poll` starts from. -/
def noEvent : ferdek_event_t := { type := 0, key := 0, x := 0, y := 0 }

/-- Scan of a trace; `ready` tells whether the call just before was an `XPending` that
reported at least one queued notification. False as soon as an `XNextEvent` is met
while not `ready`. -/
def neverBlocksFrom (ready : Bool) : List Call → Bool
  | [] => true
  | Call.XNextEvent _ :: cs => ready && neverBlocksFrom false cs
  | Call.XPending _ n :: cs => neverBlocksFrom (decide (0 < n)) cs
  | _ :: cs => neverBlocksFrom false cs

/-- Every `XNextEvent` of the trace directly follows an `XPending` that reported a
queued notification, so none of them waits for input. -/
def neverBlocks (t : List Call) : Bool := neverBlocksFrom false t

/-- A key press whose key symbol is 97 (`XK_a`). -/
def sampleKeyPress : XEvent := { type := KeyPress, keysym := 97, button := 0, x := 0, y := 0 }

/-- The calls the description of refresh asks for, row by row: for each cell the colour
`palette[cell]` is set and the 4 x 4 block with corner `(4x, 4y)` is filled. Written
from the claim, to be compared with what `ferdek_screen_refresh` emits. -/
def specFills (s : State) (cells : List Nat) : List Call :=
  (List.range s.fb_height.toNat).flatMap (fun sy =>
    (List.range s.fb_width.toNat).flatMap (fun sx =>
      [Call.XSetForeground s.display s.gc
          (s.palette.get (cells.getD (sy * s.fb_width.toNat + sx) 0)),
       Call.XFillRectangle s.display s.window s.gc (4 * (sx : Int)) (4 * (sy : Int)) 4 4]))

/-- The session after a successful `ferdek_window_open(65536, 65537, "t")` from program
start: the `int` product of the dimensions wraps to 65536. -/
def wideSession : State := (ferdek_window_open State.init sampleHost 65536 65537 "t").1

/-- The state `ferdek_window_open(2, 2, "t")` leaves when `XCreateImage` fails. -/
def halfOpenSession : State := (ferdek_window_open State.init hostNoImage 2 2 "t").1

/-! ## Arithmetic of the linear index -/

theorem wrapInt_of_range (v : Int) (h0 : -2147483648 ≤ v) (h1 : v < 2147483648) :
    wrapInt v = v := by
  unfold wrapInt
  omega

theorem index_bounds (w h x y : Int) (hx0 : 0 ≤ x) (hx : x < w) (hy0 : 0 ≤ y) (hy : y < h) :
    0 ≤ y * w ∧ 0 ≤ y * w + x ∧ y * w + x < w * h := by
  have hw : 0 < w := lt_of_le_of_lt hx0 hx
  have h1 : 0 ≤ y * w := mul_nonneg hy0 hw.le
  have h2 : (y + 1) * w ≤ h * w := mul_le_mul_of_nonneg_right (by omega) hw.le
  refine ⟨h1, by omega, ?_⟩
  have h3 : (y + 1) * w = y * w + w := by ring
  have h4 : h * w = w * h := mul_comm h w
  omega

theorem index_wrap (w h x y : Int) (hx0 : 0 ≤ x) (hx : x < w) (hy0 : 0 ≤ y) (hy : y < h)
    (hwh : w * h < 2147483648) :
    wrapInt (wrapInt (y * w) + x) = y * w + x := by
  obtain ⟨h1, h2, h3⟩ := index_bounds w h x y hx0 hx hy0 hy
  rw [wrapInt_of_range (y * w) (by omega) (by omega)]
  exact wrapInt_of_range _ (by omega) (by omega)

theorem toSize_of_nonneg (v : Int) (h0 : 0 ≤ v) (h1 : v < 2147483648) :
    toSize v = v.toNat := by
  unfold toSize
  congr 1
  omega

/-! ## Framebuffer primitives -/

theorem outOfRange_guard (s : State) (x y : Int)
    (h : x < 0 ∨ x ≥ s.fb_width ∨ y < 0 ∨ y ≥ s.fb_height) :
    (s.framebuffer.isNull = true ∨ x < 0 ∨ x ≥ s.fb_width ∨ y < 0 ∨ y ≥ s.fb_height) :=
  Or.inr h

theorem inRange_guard (s : State) (width height x y : Int) (hs : HasFramebuffer s width height)
    (hx0 : 0 ≤ x) (hx : x < width) (hy0 : 0 ≤ y) (hy : y < height) :
    ¬ (s.framebuffer.isNull = true ∨ x < 0 ∨ x ≥ s.fb_width ∨ y < 0 ∨ y ≥ s.fb_height) := by
  obtain ⟨hw, hh, _, addr, cells, hfb, _⟩ := hs
  rw [hfb, hw, hh]
  simp only [Ptr.isNull]
  intro hcon
  rcases hcon with h | h | h | h | h
  · exact Bool.noConfusion h
  · omega
  · omega
  · omega
  · omega

theorem open_hasFramebuffer (s : State) (host : Host) (width height : Int) (title : String)
    (hw : 0 < width) (hh : 0 < height) (hwh : width * height < 2147483648)
    (hok : (ferdek_window_open s host width height title).2.1 = 1) :
    HasFramebuffer (ferdek_window_open s host width height title).1 width height := by
  have hnn : 0 ≤ width * height := (mul_pos hw hh).le
  have hn : toSize (wrapInt (width * height)) = (width * height).toNat := by
    rw [wrapInt_of_range _ (by omega) hwh, toSize_of_nonneg _ hnn hwh]
  unfold ferdek_window_open at hok ⊢
  by_cases h1 : host.dpy = 0
  · simp [h1] at hok
  by_cases h2 : host.win = 0
  · simp [h1, h2] at hok
  by_cases h3 : host.fb = 0
  · simp [h1, h2, h3, Ptr.isNull] at hok
  by_cases h4 : host.img = 0
  · simp [h1, h2, h3, h4, Ptr.isNull] at hok
  simp only [h1, h2, h3, h4, Ptr.isNull, if_false, Option.isNone, init_default_palette]
  refine ⟨rfl, rfl, hwh, host.fb, List.replicate (toSize (wrapInt (width * height))) 0, rfl, ?_⟩
  rw [List.length_replicate, hn]
  exact Int.toNat_of_nonneg hnn

theorem draw_preserves_hasFramebuffer (s s' : State) (width height x y : Int) (c : Nat)
    (hs : HasFramebuffer s width height) (hd : ferdek_pixel_draw s x y c = some s') :
    HasFramebuffer s' width height := by
  obtain ⟨hw, hh, hwh, addr, cells, hfb, hlen⟩ := hs
  unfold ferdek_pixel_draw at hd
  split at hd
  · cases hd
    exact ⟨hw, hh, hwh, addr, cells, hfb, hlen⟩
  · rw [hfb] at hd
    simp only [Ptr.store] at hd
    split at hd
    · simp only [Option.map_some', Option.some.injEq] at hd
      subst hd
      exact ⟨hw, hh, hwh, addr, _, rfl, by rw [List.length_set]; exact hlen⟩
    · simp at hd

/-- C1 (amended): on a session holding a `width * height` framebuffer whose product
`width * height` is representable as an `int`, drawing byte `c` at an in-bounds `(x, y)`
succeeds and a following `ferdek_framebuffer_get (x, y)` returns `c`. -/
theorem draw_then_get (s : State) (width height x y : Int) (c : Nat)
    (hs : HasFramebuffer s width height)
    (hx0 : 0 ≤ x) (hx : x < width) (hy0 : 0 ≤ y) (hy : y < height) (hc : c < 256) :
    ∃ s', ferdek_pixel_draw s x y c = some s' ∧ ferdek_framebuffer_get s' x y = some c := by
  have hg := inRange_guard s width height x y hs hx0 hx hy0 hy
  obtain ⟨hw, hh, hwh, addr, cells, hfb, hlen⟩ := hs
  obtain ⟨h1, h2, h3⟩ := index_bounds width height x y hx0 hx hy0 hy
  have hidx := index_wrap width height x y hx0 hx hy0 hy hwh
  have hlt : (y * width + x).toNat < cells.length := by omega
  refine ⟨{ s with framebuffer := Ptr.block addr (cells.set (y * width + x).toNat (c % 256)) }, ?_, ?_⟩
  · unfold ferdek_pixel_draw
    rw [if_neg hg, hfb, hw, hidx]
    simp [Ptr.store, h2, hlt]
  · unfold ferdek_framebuffer_get
    have hg' : ¬ ((Ptr.block addr (cells.set (y * width + x).toNat (c % 256))).isNull = true ∨
        x < 0 ∨ x ≥ s.fb_width ∨ y < 0 ∨ y ≥ s.fb_height) := by
      simp only [Ptr.isNull]
      intro hcon
      rcases hcon with h | h | h | h | h
      · exact Bool.noConfusion h
      · omega
      · omega
      · omega
      · omega
    simp only []
    rw [if_neg hg', hw, hidx]
    simp [Ptr.load, h2, hlt, Nat.mod_eq_of_lt hc]

theorem draw_then_get_witness :
    HasFramebuffer sampleSession 2 2 ∧ (5 : Nat) < 256 ∧
    ∃ s', ferdek_pixel_draw sampleSession 1 1 5 = some s' ∧
      ferdek_framebuffer_get s' 1 1 = some 5 :=
  have hs : HasFramebuffer sampleSession 2 2 :=
    ⟨rfl, rfl, by decide, 4, [0, 0, 0, 0], rfl, by decide⟩
  ⟨hs, by decide,
    draw_then_get sampleSession 2 2 1 1 5 hs (by decide) (by decide) (by decide) (by decide)
      (by decide)⟩

/-- C2 (amended): on a session holding a `width * height` framebuffer whose product
`width * height` is representable as an `int`, `ferdek_screen_clear c` succeeds for every
byte `c`, and afterwards `ferdek_framebuffer_get` returns `c` at every in-bounds
coordinate, whatever the cells held before. -/
theorem clear_then_get (s : State) (width height : Int) (c : Nat)
    (hs : HasFramebuffer s width height) (hc : c < 256) :
    ∃ s', ferdek_screen_clear s c = some s' ∧
      ∀ x y : Int, 0 ≤ x → x < width → 0 ≤ y → y < height →
        ferdek_framebuffer_get s' x y = some c := by
  obtain ⟨hw, hh, hwh, addr, cells, hfb, hlen⟩ := hs
  have hnn : 0 ≤ width * height := by rw [← hlen]; exact Int.ofNat_nonneg _
  have hn : toSize (wrapInt (s.fb_width * s.fb_height)) = cells.length := by
    rw [hw, hh, wrapInt_of_range _ (by omega) hwh, toSize_of_nonneg _ hnn hwh, ← hlen]
    rfl
  have hfill : s.framebuffer.fill (c % 256) (toSize (wrapInt (s.fb_width * s.fb_height)))
      = some (Ptr.block addr (List.replicate cells.length c)) := by
    rw [hn, hfb]
    simp [Ptr.fill, Nat.mod_eq_of_lt hc]
  refine ⟨{ s with framebuffer := Ptr.block addr (List.replicate cells.length c) }, ?_, ?_⟩
  · unfold ferdek_screen_clear
    rw [hfill, hfb]
    simp [Ptr.isNull]
  · intro x y hx0 hx hy0 hy
    obtain ⟨h1, h2, h3⟩ := index_bounds width height x y hx0 hx hy0 hy
    have hidx := index_wrap width height x y hx0 hx hy0 hy hwh
    have hlt : (y * width + x).toNat < cells.length := by omega
    unfold ferdek_framebuffer_get
    have hg : ¬ ((Ptr.block addr (List.replicate cells.length c)).isNull = true ∨
        x < 0 ∨ x ≥ s.fb_width ∨ y < 0 ∨ y ≥ s.fb_height) := by
      simp only [Ptr.isNull]
      intro hcon
      rcases hcon with h | h | h | h | h
      · exact Bool.noConfusion h
      · omega
      · omega
      · omega
      · omega
    simp only []
    rw [if_neg hg, hw, hidx]
    simp [Ptr.load, h2, hlt]

theorem clear_then_get_witness :
    HasFramebuffer sampleSession 2 2 ∧ (9 : Nat) < 256 ∧
    ∃ s', ferdek_screen_clear sampleSession 9 = some s' ∧
      ∀ x y : Int, 0 ≤ x → x < 2 → 0 ≤ y → y < 2 →
        ferdek_framebuffer_get s' x y = some 9 :=
  have hs : HasFramebuffer sampleSession 2 2 :=
    ⟨rfl, rfl, by decide, 4, [0, 0, 0, 0], rfl, by decide⟩
  ⟨hs, by decide, clear_then_get sampleSession 2 2 9 hs (by decide)⟩

/-- C3: for every state, every out-of-range `(x, y)` (`x < 0`, `x >= fb_width`, `y < 0` or
`y >= fb_height`) and every colour, `ferdek_pixel_draw` returns with the whole state
unchanged. -/
theorem draw_outOfRange_noop (s : State) (x y : Int) (c : Nat)
    (h : x < 0 ∨ x ≥ s.fb_width ∨ y < 0 ∨ y ≥ s.fb_height) :
    ferdek_pixel_draw s x y c = some s := by
  unfold ferdek_pixel_draw
  rw [if_pos (outOfRange_guard s x y h)]

theorem draw_outOfRange_noop_witness :
    ((2 : Int) < 0 ∨ (2 : Int) ≥ sampleSession.fb_width ∨ (0 : Int) < 0 ∨
      (0 : Int) ≥ sampleSession.fb_height) ∧
    ferdek_pixel_draw sampleSession 2 0 7 = some sampleSession :=
  have h : (2 : Int) < 0 ∨ (2 : Int) ≥ sampleSession.fb_width ∨ (0 : Int) < 0 ∨
      (0 : Int) ≥ sampleSession.fb_height := Or.inr (Or.inl (by decide))
  ⟨h, draw_outOfRange_noop sampleSession 2 0 7 h⟩

/-- C4: for every state and every out-of-range `(x, y)`, `ferdek_framebuffer_get` returns 0,
whatever the framebuffer holds. -/
theorem get_outOfRange_zero (s : State) (x y : Int)
    (h : x < 0 ∨ x ≥ s.fb_width ∨ y < 0 ∨ y ≥ s.fb_height) :
    ferdek_framebuffer_get s x y = some 0 := by
  unfold ferdek_framebuffer_get
  rw [if_pos (outOfRange_guard s x y h)]

theorem get_outOfRange_zero_witness :
    ((0 : Int) < 0 ∨ (0 : Int) ≥ sampleSession.fb_width ∨ (-1 : Int) < 0 ∨
      (-1 : Int) ≥ sampleSession.fb_height) ∧
    ferdek_framebuffer_get sampleSession 0 (-1) = some 0 :=
  have h : (0 : Int) < 0 ∨ (0 : Int) ≥ sampleSession.fb_width ∨ (-1 : Int) < 0 ∨
      (-1 : Int) ≥ sampleSession.fb_height := Or.inr (Or.inr (Or.inl (by decide)))
  ⟨h, get_outOfRange_zero sampleSession 0 (-1) h⟩

/-! ## Closing the session -/

theorem close_state (s : State) :
    (ferdek_window_close s).1 =
      { s with ximage := none, framebuffer := Ptr.null, gc := 0, window := 0, display := 0 } := by
  obtain ⟨d, w, g, xi, fb, fw, fh, pal⟩ := s
  unfold ferdek_window_close
  cases xi <;> cases fb <;> by_cases hg : g = 0 <;> by_cases hw : w = 0 <;>
    by_cases hd : d = 0 <;> simp [Ptr.isNull, hg, hw, hd]

theorem close_closed (s : State) (h : NotOpen s) :
    ferdek_window_close s = (s, [Call.printClosed]) := by
  obtain ⟨d, w, g, xi, fb, fw, fh, pal⟩ := s
  obtain ⟨h1, h2, h3, h4, h5⟩ := h
  simp only at h1 h2 h3 h4 h5
  subst h1 h2 h3 h4 h5
  rfl

theorem close_notOpen (s : State) : NotOpen (ferdek_window_close s).1 := by
  rw [close_state]
  exact ⟨rfl, rfl, rfl, rfl, rfl⟩

/-- C5: after `ferdek_window_close`, from any prior state, no framebuffer exists: for every
`x`, `y`, `c`, a following `ferdek_pixel_draw` and `ferdek_screen_clear` return with the
state unchanged, and `ferdek_framebuffer_get` returns 0, before and after such a draw. -/
theorem after_close_no_framebuffer (s : State) (x y : Int) (c : Nat) :
    (ferdek_window_close s).1.framebuffer = Ptr.null ∧
    ferdek_pixel_draw (ferdek_window_close s).1 x y c = some (ferdek_window_close s).1 ∧
    ferdek_screen_clear (ferdek_window_close s).1 c = some (ferdek_window_close s).1 ∧
    ferdek_framebuffer_get (ferdek_window_close s).1 x y = some 0 ∧
    (∀ s', ferdek_pixel_draw (ferdek_window_close s).1 x y c = some s' →
      ∀ x' y' : Int, ferdek_framebuffer_get s' x' y' = some 0) := by
  have hfb : (ferdek_window_close s).1.framebuffer = Ptr.null := (close_notOpen s).2.2.2.1
  have hdraw : ∀ x y c, ferdek_pixel_draw (ferdek_window_close s).1 x y c
      = some (ferdek_window_close s).1 := by
    intro x y c
    unfold ferdek_pixel_draw
    rw [hfb]
    simp [Ptr.isNull]
  have hget : ∀ x y, ferdek_framebuffer_get (ferdek_window_close s).1 x y = some 0 := by
    intro x y
    unfold ferdek_framebuffer_get
    rw [hfb]
    simp [Ptr.isNull]
  refine ⟨hfb, hdraw x y c, ?_, hget x y, ?_⟩
  · unfold ferdek_screen_clear
    rw [hfb]
    simp [Ptr.isNull]
  · intro s' hs' x' y'
    rw [hdraw x y c] at hs'
    cases hs'
    exact hget x' y'

/-- What `ferdek_window_close` does to the globals: after one call display, window,
drawing context, framebuffer and image are all cleared, and a second consecutive call makes
no release call and returns the state the first call left. Whether the releases of the
first call hit resources that are still held is read off the trace with `track`. -/
theorem close_idempotent (s : State) :
    NotOpen (ferdek_window_close s).1 ∧
    (ferdek_window_close (ferdek_window_close s).1).1 = (ferdek_window_close s).1 ∧
    releaseCalls (ferdek_window_close (ferdek_window_close s).1).2 = [] := by
  have h := close_closed _ (close_notOpen s)
  refine ⟨close_notOpen s, ?_, ?_⟩
  · rw [h]
  · rw [h]
    rfl

/-! ## Failed open -/

/-- C6 (evaluation at the failing input): when `calloc` fails, `ferdek_window_open`
returns 0 after releasing drawing context, window and display, yet leaves the three
handles recorded in the globals, so the state is not "not open"; when `XCreateImage`
fails, the freed framebuffer stays recorded and the `malloc` block is never released. -/
theorem failed_open_keeps_handles :
    (ferdek_window_open State.init hostNoFramebuffer 64 48 "t").2.1 = 0 ∧
    track [] (ferdek_window_open State.init hostNoFramebuffer 64 48 "t").2.2 = some [] ∧
    (ferdek_window_open State.init hostNoFramebuffer 64 48 "t").1.display = 1 ∧
    (ferdek_window_open State.init hostNoFramebuffer 64 48 "t").1.window = 2 ∧
    (ferdek_window_open State.init hostNoFramebuffer 64 48 "t").1.gc = 3 ∧
    ¬ NotOpen (ferdek_window_open State.init hostNoFramebuffer 64 48 "t").1 ∧
    (ferdek_window_open State.init hostNoImage 2 2 "t").2.1 = 0 ∧
    (ferdek_window_open State.init hostNoImage 2 2 "t").1.framebuffer = Ptr.freed 4 ∧
    track [] (ferdek_window_open State.init hostNoImage 2 2 "t").2.2
      = some [(Res.memory, 5)] := by
  refine ⟨rfl, by decide, rfl, rfl, rfl, by decide, rfl, rfl, by decide⟩

/-- C8 (evaluation at the failing input): `ferdek_window_open` failing at `calloc`
releases drawing context, window and display; the `ferdek_window_close` that follows
releases the same three handles again. -/
theorem close_after_failed_open_releases_twice :
    NotOpen State.init ∧
    releaseCalls (ferdek_window_open State.init hostNoFramebuffer 64 48 "t").2.2
      = [Call.XFreeGC 1 3, Call.XDestroyWindow 1 2, Call.XCloseDisplay 1] ∧
    releaseCalls
        (ferdek_window_close (ferdek_window_open State.init hostNoFramebuffer 64 48 "t").1).2
      = [Call.XFreeGC 1 3, Call.XDestroyWindow 1 2, Call.XCloseDisplay 1] ∧
    track [] ((ferdek_window_open State.init hostNoFramebuffer 64 48 "t").2.2 ++
        (ferdek_window_close (ferdek_window_open State.init hostNoFramebuffer 64 48 "t").1).2)
      = none := by
  refine ⟨by decide, by decide, by decide, by decide⟩

/-! ## Palette -/

theorem packRGB_eq (r g b : Nat) (hg : g < 256) (hb : b < 256) :
    packRGB r g b = r * 65536 + g * 256 + b := by
  unfold packRGB
  rw [Nat.shiftLeft_eq, Nat.shiftLeft_eq]
  have h1 : r * 2 ^ 16 ||| g * 2 ^ 8 = 2 ^ 8 * (r * 256 + g) := by
    have h := Nat.mul_add_lt_is_or (i := 16) (b := g * 2 ^ 8) (by omega) r
    rw [show r * 2 ^ 16 = 2 ^ 16 * r by ring, ← h]
    ring
  rw [h1, ← Nat.mul_add_lt_is_or (i := 8) (by omega : b < 2 ^ 8)]
  ring

theorem foldlM_set_range (val : Nat → Nat) (f : Palette → Nat → Option Palette)
    (hf : ∀ p i, i < 256 → f p i = some (p.set i (val i))) :
    ∀ n, n ≤ 256 → ∀ p : Palette, ∃ q : Palette, (List.range n).foldlM f p = some q ∧
      (∀ i, i < n → q.1[i]? = some (val i)) ∧ (∀ i, n ≤ i → q.1[i]? = p.1[i]?) := by
  intro n
  induction n with
  | zero =>
    intro _ p
    exact ⟨p, rfl, fun i hi => absurd hi (Nat.not_lt_zero i), fun _ _ => rfl⟩
  | succ n ih =>
    intro hn p
    obtain ⟨q, hq, hlo, hhi⟩ := ih (by omega) p
    refine ⟨q.set n (val n), ?_, ?_, ?_⟩
    · rw [List.range_succ, List.foldlM_append, hq]
      simp [hf q n (by omega)]
    · intro i hi
      by_cases hin : i = n
      · subst hin
        simp [Palette.set, List.getElem?_set, q.2]
        omega
      · have : i < n := by omega
        simp [Palette.set, List.getElem?_set, hlo i this]
        omega
    · intro i hi
      have : n ≠ i := by omega
      simp [Palette.set, List.getElem?_set, this, hhi i (by omega)]

theorem palette_set_table (s : State) (pal : List Nat) (hlen : pal.length = 768) :
    ∃ q : Palette, q.1 = packedTable pal ∧
      ferdek_palette_set s (some pal) = some { s with palette := q } := by
  obtain ⟨q, hq, hlo, _⟩ := foldlM_set_range
    (fun i => packRGB (pal.getD (i * 3 + 0) 0 % 256) (pal.getD (i * 3 + 1) 0 % 256)
      (pal.getD (i * 3 + 2) 0 % 256))
    (fun (p : Palette) i => do
        let r ← pal[i * 3 + 0]?
        let g ← pal[i * 3 + 1]?
        let b ← pal[i * 3 + 2]?
        pure (p.set i (packRGB (r % 256) (g % 256) (b % 256))))
    (by
      intro p i hi
      have h0 : i * 3 + 0 < pal.length := by omega
      have h1 : i * 3 + 1 < pal.length := by omega
      have h2 : i * 3 + 2 < pal.length := by omega
      simp only [List.getD_eq_getElem?_getD, List.getElem?_eq_getElem h0,
        List.getElem?_eq_getElem h1, List.getElem?_eq_getElem h2, Option.getD_some]
      rfl)
    256 (le_refl 256) s.palette
  refine ⟨q, ?_, ?_⟩
  · apply List.ext_getElem?
    intro i
    by_cases hi : i < 256
    · rw [hlo i hi]
      simp [packedTable, List.getElem?_map, List.getElem?_range hi]
    · have h1 : q.1.length ≤ i := by rw [q.2]; omega
      have h2 : (packedTable pal).length ≤ i := by simp [packedTable]; omega
      rw [List.getElem?_eq_none h1, List.getElem?_eq_none h2]
  · unfold ferdek_palette_set
    simp only []
    rw [hq]
    rfl

theorem packedTable_entry (pal : List Nat) (hb : ∀ b ∈ pal, b < 256) (i : Nat) (hi : i < 256) :
    (packedTable pal)[i]? =
      some (pal.getD (3 * i) 0 * 65536 + pal.getD (3 * i + 1) 0 * 256 + pal.getD (3 * i + 2) 0) := by
  have hbyte : ∀ k, pal.getD k 0 < 256 := by
    intro k
    rw [List.getD_eq_getElem?_getD]
    cases hk : pal[k]? with
    | none => simp
    | some v => exact hb v (List.getElem?_mem hk)
  simp only [packedTable, List.getElem?_map, List.getElem?_range hi, Option.map_some']
  rw [Nat.mod_eq_of_lt (hbyte _), Nat.mod_eq_of_lt (hbyte _), Nat.mod_eq_of_lt (hbyte _),
    packRGB_eq _ _ _ (hbyte _) (hbyte _)]
  have e : i * 3 = 3 * i := Nat.mul_comm i 3
  rw [Nat.add_zero, e]

/-- C9: for every 768-byte buffer `pal` and every prior state, `ferdek_palette_set pal`
succeeds; afterwards each of the 256 palette entries `i` is
`pal[3i] * 65536 + pal[3i+1] * 256 + pal[3i+2]`, the table is the same from every prior
palette, and nothing but the palette (in particular not the framebuffer) has changed. -/
theorem palette_set_overwrites (s : State) (pal : List Nat) (hlen : pal.length = 768)
    (hb : ∀ b ∈ pal, b < 256) :
    ∃ s', ferdek_palette_set s (some pal) = some s' ∧
      (∀ i, i < 256 → s'.palette.1[i]? =
        some (pal.getD (3 * i) 0 * 65536 + pal.getD (3 * i + 1) 0 * 256
          + pal.getD (3 * i + 2) 0)) ∧
      (∀ t : State, ∃ t', ferdek_palette_set t (some pal) = some t' ∧
        t'.palette = s'.palette) ∧
      s'.framebuffer = s.framebuffer ∧ s' = { s with palette := s'.palette } := by
  obtain ⟨q, hq, hset⟩ := palette_set_table s pal hlen
  refine ⟨{ s with palette := q }, hset, ?_, ?_, rfl, rfl⟩
  · intro i hi
    show q.1[i]? = _
    rw [hq]
    exact packedTable_entry pal hb i hi
  · intro t
    obtain ⟨q', hq', hset'⟩ := palette_set_table t pal hlen
    refine ⟨{ t with palette := q' }, hset', ?_⟩
    exact Subtype.ext (hq'.trans hq.symm)

/-- C10: for every state and every 768-byte buffer `pal`, a second consecutive
`ferdek_palette_set pal` returns the state the first call produced, hence
`ferdek_screen_refresh` makes the same calls after two calls as after one. -/
theorem palette_set_idempotent (s : State) (pal : List Nat) (hlen : pal.length = 768) :
    ∃ s1, ferdek_palette_set s (some pal) = some s1 ∧
      ferdek_palette_set s1 (some pal) = some s1 ∧
      ((ferdek_palette_set s (some pal)).bind (fun a => ferdek_palette_set a (some pal))
        = ferdek_palette_set s (some pal)) ∧
      ((ferdek_palette_set s (some pal)).bind (fun a => ferdek_palette_set a (some pal))).map
          ferdek_screen_refresh
        = (ferdek_palette_set s (some pal)).map ferdek_screen_refresh := by
  obtain ⟨q, hq, hset⟩ := palette_set_table s pal hlen
  obtain ⟨q', hq', hset'⟩ := palette_set_table { s with palette := q } pal hlen
  have hqq : q' = q := Subtype.ext (hq'.trans hq.symm)
  have h2 : ferdek_palette_set { s with palette := q } (some pal)
      = some { s with palette := q } := by
    rw [hset', hqq]
  have h3 : (ferdek_palette_set s (some pal)).bind (fun a => ferdek_palette_set a (some pal))
      = ferdek_palette_set s (some pal) := by
    rw [hset]
    exact h2
  exact ⟨{ s with palette := q }, hset, h2, h3, by rw [h3]⟩

theorem sampleBytes_length : sampleBytes.length = 768 := by
  simp [sampleBytes]

theorem sampleBytes_byte : ∀ b ∈ sampleBytes, b < 256 := by
  intro b hb
  simp only [sampleBytes, List.mem_map] at hb
  obtain ⟨k, _, rfl⟩ := hb
  exact Nat.mod_lt k (by decide)

theorem palette_set_overwrites_witness :
    sampleBytes.length = 768 ∧ (∀ b ∈ sampleBytes, b < 256) ∧
    ∃ s', ferdek_palette_set sampleSession (some sampleBytes) = some s' ∧
      s'.palette.1[1]? = some (sampleBytes.getD (3 * 1) 0 * 65536
        + sampleBytes.getD (3 * 1 + 1) 0 * 256 + sampleBytes.getD (3 * 1 + 2) 0) ∧
      s'.framebuffer = sampleSession.framebuffer :=
  have h := palette_set_overwrites sampleSession sampleBytes sampleBytes_length sampleBytes_byte
  ⟨sampleBytes_length, sampleBytes_byte,
    h.elim (fun s' hs' => ⟨s', hs'.1, hs'.2.1 1 (by omega), hs'.2.2.2.1⟩)⟩

theorem palette_set_idempotent_witness :
    sampleBytes.length = 768 ∧
    ∃ s1, ferdek_palette_set sampleSession (some sampleBytes) = some s1 ∧
      ferdek_palette_set s1 (some sampleBytes) = some s1 :=
  have h := palette_set_idempotent sampleSession sampleBytes sampleBytes_length
  ⟨sampleBytes_length, h.elim (fun s1 hs1 => ⟨s1, hs1.1, hs1.2.1⟩)⟩

/-! ## A successful open -/

theorem open_success_state (s : State) (host : Host) (width height : Int) (title : String)
    (hok : (ferdek_window_open s host width height title).2.1 = 1) :
    (ferdek_window_open s host width height title).1 =
      init_default_palette
        { s with display := host.dpy, window := host.win, gc := host.gcv,
                 fb_width := width, fb_height := height,
                 framebuffer := Ptr.block host.fb
                   (List.replicate (toSize (wrapInt (width * height))) 0),
                 ximage := some
                   { id := host.img,
                     data := if host.imgData = 0 then Ptr.null
                       else Ptr.block host.imgData
                         (List.replicate (toSize (wrapInt (wrapInt (width * height) * 4)) / 4) 0) } }
      ∧ host.dpy ≠ 0 ∧ host.win ≠ 0 ∧ host.fb ≠ 0 ∧ host.img ≠ 0 := by
  unfold ferdek_window_open at hok ⊢
  by_cases h1 : host.dpy = 0
  · simp [h1] at hok
  by_cases h2 : host.win = 0
  · simp [h1, h2] at hok
  by_cases h3 : host.fb = 0
  · simp [h1, h2, h3, Ptr.isNull] at hok
  by_cases h4 : host.img = 0
  · simp [h1, h2, h3, h4, Ptr.isNull] at hok
  refine ⟨?_, h1, h2, h3, h4⟩
  simp only [h1, h2, h3, h4, Ptr.isNull, if_false, Option.isNone]
  rfl

theorem get_inBounds (s : State) (width height x y : Int) (addr : Nat) (cells : List Nat)
    (hw : s.fb_width = width) (hh : s.fb_height = height) (hwh : width * height < 2147483648)
    (hfb : s.framebuffer = Ptr.block addr cells)
    (hx0 : 0 ≤ x) (hx : x < width) (hy0 : 0 ≤ y) (hy : y < height) :
    ferdek_framebuffer_get s x y = cells[(y * width + x).toNat]? := by
  obtain ⟨h1, h2, h3⟩ := index_bounds width height x y hx0 hx hy0 hy
  have hidx := index_wrap width height x y hx0 hx hy0 hy hwh
  have hg : ¬ (s.framebuffer.isNull = true ∨ x < 0 ∨ x ≥ s.fb_width ∨ y < 0 ∨ y ≥ s.fb_height) := by
    rw [hfb, hw, hh]
    simp only [Ptr.isNull]
    intro hcon
    rcases hcon with h | h | h | h | h
    · exact Bool.noConfusion h
    · omega
    · omega
    · omega
    · omega
  unfold ferdek_framebuffer_get
  rw [if_neg hg, hw, hidx, hfb]
  simp [Ptr.load, h2]

/-- C11: for every `width > 0`, `height > 0` with `width * height` representable as an
`int`, and every prior state, a successful `ferdek_window_open` leaves a live framebuffer
of exactly `width * height` cells with `fb_width = width`, `fb_height = height`, and
`ferdek_framebuffer_get` returns 0 at every in-bounds coordinate. -/
theorem open_framebuffer_zero (s : State) (host : Host) (width height : Int) (title : String)
    (hw : 0 < width) (hh : 0 < height) (hwh : width * height < 2147483648)
    (hok : (ferdek_window_open s host width height title).2.1 = 1) :
    HasFramebuffer (ferdek_window_open s host width height title).1 width height ∧
    ∀ x y : Int, 0 ≤ x → x < width → 0 ≤ y → y < height →
      ferdek_framebuffer_get (ferdek_window_open s host width height title).1 x y = some 0 := by
  have hnn : 0 ≤ width * height := (mul_pos hw hh).le
  have hn : toSize (wrapInt (width * height)) = (width * height).toNat := by
    rw [wrapInt_of_range _ (by omega) hwh, toSize_of_nonneg _ hnn hwh]
  refine ⟨open_hasFramebuffer s host width height title hw hh hwh hok, ?_⟩
  intro x y hx0 hx hy0 hy
  obtain ⟨hst, -⟩ := open_success_state s host width height title hok
  obtain ⟨h1, h2, h3⟩ := index_bounds width height x y hx0 hx hy0 hy
  rw [get_inBounds _ width height x y host.fb
    (List.replicate (toSize (wrapInt (width * height))) 0)
    (by rw [hst]; rfl) (by rw [hst]; rfl) hwh (by rw [hst]; rfl) hx0 hx hy0 hy]
  rw [hn]
  have hlt : (y * width + x).toNat < (width * height).toNat := by omega
  simp [List.getElem?_replicate, hlt]

theorem open_framebuffer_zero_witness :
    (0 : Int) < 2 ∧ (0 : Int) < 2 ∧ (2 : Int) * 2 < 2147483648 ∧
    (ferdek_window_open sampleSession sampleHost 2 2 "t").2.1 = 1 ∧
    HasFramebuffer (ferdek_window_open sampleSession sampleHost 2 2 "t").1 2 2 ∧
    ∀ x y : Int, 0 ≤ x → x < 2 → 0 ≤ y → y < 2 →
      ferdek_framebuffer_get (ferdek_window_open sampleSession sampleHost 2 2 "t").1 x y
        = some 0 :=
  have h := open_framebuffer_zero sampleSession sampleHost 2 2 "t" (by decide) (by decide)
    (by decide) rfl
  ⟨by decide, by decide, by decide, rfl, h.1, h.2⟩

theorem foldl_set_range (val : Nat → Nat) :
    ∀ n, n ≤ 256 → ∀ p : Palette,
      (∀ i, i < n →
        ((List.range n).foldl (fun (q : Palette) i => q.set i (val i)) p).1[i]? = some (val i)) ∧
      (∀ i, n ≤ i →
        ((List.range n).foldl (fun (q : Palette) i => q.set i (val i)) p).1[i]? = p.1[i]?) := by
  intro n
  induction n with
  | zero =>
    intro _ p
    exact ⟨fun i hi => absurd hi (Nat.not_lt_zero i), fun _ _ => rfl⟩
  | succ n ih =>
    intro hn p
    obtain ⟨hlo, hhi⟩ := ih (by omega) p
    rw [List.range_succ, List.foldl_append]
    simp only [List.foldl_cons, List.foldl_nil]
    generalize (List.range n).foldl (fun (q : Palette) i => q.set i (val i)) p = q at hlo hhi ⊢
    refine ⟨?_, ?_⟩
    · intro i hi
      by_cases hin : i = n
      · subst hin
        simp [Palette.set, List.getElem?_set, q.2]
        omega
      · have : i < n := by omega
        simp [Palette.set, List.getElem?_set, hlo i this]
        omega
    · intro i hi
      have : n ≠ i := by omega
      simp [Palette.set, List.getElem?_set, this, hhi i (by omega)]

theorem packRGB_gray (i : Nat) (hi : i < 256) : packRGB i i i = i * 65536 + i * 256 + i :=
  packRGB_eq i i i hi hi

/-- C12: after every successful `ferdek_window_open`, from every prior state (whatever
palette it held), palette entry `i` is `i * 65536 + i * 256 + i` for every `i` in 0..255. -/
theorem open_palette_gray (s : State) (host : Host) (width height : Int) (title : String)
    (hok : (ferdek_window_open s host width height title).2.1 = 1) :
    ∀ i, i < 256 →
      (ferdek_window_open s host width height title).1.palette.1[i]?
        = some (i * 65536 + i * 256 + i) := by
  intro i hi
  obtain ⟨hst, -⟩ := open_success_state s host width height title hok
  rw [hst]
  simp only [init_default_palette]
  rw [(foldl_set_range (fun i => packRGB i i i) 256 (le_refl 256) s.palette).1 i hi,
    packRGB_gray i hi]

theorem open_palette_gray_witness :
    (ferdek_window_open sampleSession sampleHost 2 2 "t").2.1 = 1 ∧
    ∀ i, i < 256 →
      (ferdek_window_open sampleSession sampleHost 2 2 "t").1.palette.1[i]?
        = some (i * 65536 + i * 256 + i) :=
  ⟨rfl, open_palette_gray sampleSession sampleHost 2 2 "t" rfl⟩

/-! ## Refresh -/

/-- C13 (evaluation at the failing input): `ferdek_window_open` succeeds although `malloc`
returned `NULL`, leaving display, window, framebuffer and image all present; on that
session `ferdek_screen_refresh` writes through the null `data` pointer of the image and
emits no fill. -/
theorem refresh_null_image_data :
    (ferdek_window_open State.init hostNoImageData 2 2 "t").2.1 = 1 ∧
    (ferdek_window_open State.init hostNoImageData 2 2 "t").1.display = 1 ∧
    (ferdek_window_open State.init hostNoImageData 2 2 "t").1.window = 2 ∧
    (ferdek_window_open State.init hostNoImageData 2 2 "t").1.framebuffer
      = Ptr.block 4 [0, 0, 0, 0] ∧
    (ferdek_window_open State.init hostNoImageData 2 2 "t").1.ximage
      = some { id := 6, data := Ptr.null } ∧
    ferdek_screen_refresh (ferdek_window_open State.init hostNoImageData 2 2 "t").1 = none := by
  refine ⟨rfl, rfl, rfl, rfl, rfl, by decide⟩

/-! ## Polling for events -/

theorem wrapInt_bounds (v : Int) : -2147483648 ≤ wrapInt v ∧ wrapInt v < 2147483648 := by
  unfold wrapInt
  omega

theorem loop_cons_skip (s : State) (ev : ferdek_event_t) (calls : List Call) (xev : XEvent)
    (rest : List XEvent) (h : xev.translatable = false) :
    ferdek_event_poll_loop s ev calls (xev :: rest) =
      ferdek_event_poll_loop s ev
        (calls ++ [Call.XPending s.display (rest.length + 1), Call.XNextEvent s.display]) rest := by
  simp only [XEvent.translatable, Bool.or_eq_false_iff, decide_eq_false_iff_not] at h
  obtain ⟨⟨⟨h1, h2⟩, h3⟩, h4⟩ := h
  rw [ferdek_event_poll_loop]
  simp [h1, h2, h3, h4]

theorem loop_cons_take (s : State) (ev : ferdek_event_t) (calls : List Call) (xev : XEvent)
    (rest : List XEvent) (h : xev.translatable = true) :
    (ferdek_event_poll_loop s ev calls (xev :: rest)).queue = rest ∧
    (ferdek_event_poll_loop s ev calls (xev :: rest)).state = s ∧
    (ferdek_event_poll_loop s ev calls (xev :: rest)).calls =
      calls ++ [Call.XPending s.display (rest.length + 1), Call.XNextEvent s.display] ∧
    (ferdek_event_poll_loop s ev calls (xev :: rest)).event =
      (ferdek_event_poll_loop State.init ev [] [xev]).event := by
  simp only [XEvent.translatable, Bool.or_eq_true, decide_eq_true_eq] at h
  rw [ferdek_event_poll_loop, ferdek_event_poll_loop]
  by_cases h1 : xev.type = KeyPress
  · simp [h1]
  by_cases h2 : xev.type = KeyRelease
  · simp [h2, KeyPress, KeyRelease]
  by_cases h3 : xev.type = ButtonPress
  · simp [h3, KeyPress, KeyRelease, ButtonPress]
  by_cases h4 : xev.type = ClientMessage
  · simp [h4, KeyPress, KeyRelease, ButtonPress, ClientMessage]
  · exfalso
    rcases h with ((h | h) | h) | h
    · exact h1 h
    · exact h2 h
    · exact h3 h
    · exact h4 h

theorem loop_skip_all (s : State) (ev : ferdek_event_t) (pre : List XEvent)
    (hpre : ∀ p ∈ pre, p.translatable = false) :
    ∀ calls : List Call,
      (ferdek_event_poll_loop s ev calls pre).event = ev ∧
      (ferdek_event_poll_loop s ev calls pre).queue = [] ∧
      (ferdek_event_poll_loop s ev calls pre).state = s := by
  induction pre with
  | nil =>
    intro calls
    simp [ferdek_event_poll_loop]
  | cons p pre ih =>
    intro calls
    rw [loop_cons_skip s ev calls p pre (hpre p (List.mem_cons_self p pre))]
    exact ih (fun q hq => hpre q (List.mem_cons_of_mem p hq)) _

theorem loop_skip_then_take (s : State) (ev : ferdek_event_t) (pre post : List XEvent)
    (e : XEvent) (hpre : ∀ p ∈ pre, p.translatable = false) (he : e.translatable = true) :
    ∀ calls : List Call,
      (ferdek_event_poll_loop s ev calls (pre ++ e :: post)).event =
        (ferdek_event_poll_loop State.init ev [] [e]).event ∧
      (ferdek_event_poll_loop s ev calls (pre ++ e :: post)).queue = post ∧
      (ferdek_event_poll_loop s ev calls (pre ++ e :: post)).state = s := by
  induction pre with
  | nil =>
    intro calls
    obtain ⟨h1, h2, _, h4⟩ := loop_cons_take s ev calls e post he
    exact ⟨h4, h1, h2⟩
  | cons p pre ih =>
    intro calls
    rw [List.cons_append, loop_cons_skip s ev calls p _ (hpre p (List.mem_cons_self p pre))]
    exact ih (fun q hq => hpre q (List.mem_cons_of_mem p hq)) _

theorem tdiv4_bounds (x : Int) (h0 : -2147483648 ≤ x) (h1 : x < 2147483648) :
    -2147483648 ≤ Int.tdiv x 4 ∧ Int.tdiv x 4 < 2147483648 := by
  rcases le_total 0 x with h | h
  · rw [Int.tdiv_eq_ediv h (by decide)]
    omega
  · have hx : x = -(-x) := by omega
    rw [hx, Int.neg_tdiv, Int.tdiv_eq_ediv (by omega) (by decide)]
    omega

theorem poll_open (s : State) (queue : List XEvent) (hd : s.display ≠ 0) :
    ferdek_event_poll s queue = ferdek_event_poll_loop s noEvent [] queue := by
  unfold ferdek_event_poll
  simp only [if_neg hd]
  rfl

theorem translate_button (e : XEvent) (he : e.type = ButtonPress) :
    (ferdek_event_poll_loop State.init noEvent [] [e]).event =
      { type := 3, key := wrapInt e.button, x := wrapInt (Int.tdiv e.x 4),
        y := wrapInt (Int.tdiv e.y 4) } := by
  rw [ferdek_event_poll_loop]
  simp [he, KeyPress, KeyRelease, ButtonPress, noEvent]

theorem button_translatable (e : XEvent) (he : e.type = ButtonPress) :
    e.translatable = true := by
  simp [XEvent.translatable, he]

/-- C14: on an open session, when the oldest translatable queued notification is a
button press with button number `b` at window pixel `(px, py)`, `ferdek_event_poll`
returns `{type = 3, key = b, x = px / 4, y = py / 4}`, the quotients being those of C
`int` division, which is the floor quotient for non-negative pixels. -/
theorem poll_button_press (s : State) (pre post : List XEvent) (e : XEvent)
    (hd : s.display ≠ 0) (hpre : ∀ p ∈ pre, p.translatable = false)
    (he : e.type = ButtonPress) (hb : e.button < 2147483648)
    (hx : -2147483648 ≤ e.x ∧ e.x < 2147483648) (hy : -2147483648 ≤ e.y ∧ e.y < 2147483648) :
    (ferdek_event_poll s (pre ++ e :: post)).event =
      { type := 3, key := e.button, x := Int.tdiv e.x 4, y := Int.tdiv e.y 4 } ∧
    (0 ≤ e.x → Int.tdiv e.x 4 = e.x / 4) ∧ (0 ≤ e.y → Int.tdiv e.y 4 = e.y / 4) := by
  refine ⟨?_, fun h => Int.tdiv_eq_ediv h (by decide), fun h => Int.tdiv_eq_ediv h (by decide)⟩
  rw [poll_open s _ hd,
    (loop_skip_then_take s noEvent pre post e hpre (button_translatable e he) []).1,
    translate_button e he]
  have hbx := tdiv4_bounds e.x hx.1 hx.2
  have hby := tdiv4_bounds e.y hy.1 hy.2
  rw [wrapInt_of_range _ (by omega) (by omega), wrapInt_of_range _ hbx.1 hbx.2,
    wrapInt_of_range _ hby.1 hby.2]

theorem poll_button_press_witness :
    session64x48.display ≠ 0 ∧ samplePress.type = ButtonPress ∧
    (ferdek_event_poll session64x48 ([sampleMotion] ++ samplePress :: [sampleMotion])).event =
      { type := 3, key := 1, x := 10, y := 10 } :=
  ⟨by decide, rfl,
    (poll_button_press session64x48 [sampleMotion] [sampleMotion] samplePress (by decide)
      (by decide) rfl (by decide) (by decide) (by decide)).1⟩

/-- C15: on an open session, for every queue `pre ++ e :: post` whose notifications in
`pre` are all of a kind the switch does not handle and whose `e` is a key press, key
release, button press or client message, `ferdek_event_poll` returns the translation of
`e` alone and leaves exactly `post` queued, in order; on a queue with no such `e` it
empties the queue and returns `{0, 0, 0, 0}`. -/
theorem poll_takes_oldest_translatable (s : State) (pre post : List XEvent) (e : XEvent)
    (hd : s.display ≠ 0) (hpre : ∀ p ∈ pre, p.translatable = false) :
    (e.translatable = true →
      (ferdek_event_poll s (pre ++ e :: post)).event = e.translate ∧
      (ferdek_event_poll s (pre ++ e :: post)).queue = post) ∧
    (ferdek_event_poll s pre).event = { type := 0, key := 0, x := 0, y := 0 } ∧
    (ferdek_event_poll s pre).queue = [] := by
  refine ⟨?_, ?_, ?_⟩
  · intro he
    rw [poll_open s _ hd]
    obtain ⟨h1, h2, _⟩ := loop_skip_then_take s noEvent pre post e hpre he []
    exact ⟨h1, h2⟩
  · rw [poll_open s _ hd]
    exact (loop_skip_all s noEvent pre hpre []).1
  · rw [poll_open s _ hd]
    exact (loop_skip_all s noEvent pre hpre []).2.1

theorem poll_takes_oldest_translatable_witness :
    session64x48.display ≠ 0 ∧ (∀ p ∈ [sampleMotion, sampleMotion], p.translatable = false) ∧
    samplePress.translatable = true ∧
    (ferdek_event_poll session64x48
        ([sampleMotion, sampleMotion] ++ samplePress :: [sampleMotion, samplePress])).event
      = samplePress.translate ∧
    (ferdek_event_poll session64x48
        ([sampleMotion, sampleMotion] ++ samplePress :: [sampleMotion, samplePress])).queue
      = [sampleMotion, samplePress] ∧
    (ferdek_event_poll session64x48 [sampleMotion, sampleMotion]).event
      = { type := 0, key := 0, x := 0, y := 0 } ∧
    (ferdek_event_poll session64x48 [sampleMotion, sampleMotion]).queue = [] :=
  have h := poll_takes_oldest_translatable session64x48 [sampleMotion, sampleMotion]
    [sampleMotion, samplePress] samplePress (by decide) (by decide)
  ⟨by decide, by decide, by decide, (h.1 (by decide)).1, (h.1 (by decide)).2, h.2.1, h.2.2⟩

theorem neverBlocksFrom_append_pending (d n : Nat) (tl : List Call) :
    ∀ (acc : List Call) (b : Bool),
      neverBlocksFrom b (acc ++ Call.XPending d n :: tl) =
        (neverBlocksFrom b acc && neverBlocksFrom (decide (0 < n)) tl) := by
  intro acc
  induction acc with
  | nil =>
    intro b
    simp [neverBlocksFrom]
  | cons c acc ih =>
    intro b
    cases c <;> simp [neverBlocksFrom, ih, Bool.and_assoc]

theorem loop_neverBlocks (s : State) (ev : ferdek_event_t) (queue : List XEvent) :
    ∀ calls : List Call, neverBlocks calls = true →
      neverBlocks (ferdek_event_poll_loop s ev calls queue).calls = true := by
  induction queue with
  | nil =>
    intro calls hc
    simp only [ferdek_event_poll_loop, neverBlocks] at hc ⊢
    rw [neverBlocksFrom_append_pending, hc]
    rfl
  | cons xev rest ih =>
    intro calls hc
    have hc' : neverBlocks
        (calls ++ [Call.XPending s.display (rest.length + 1), Call.XNextEvent s.display])
        = true := by
      simp only [neverBlocks] at hc ⊢
      rw [neverBlocksFrom_append_pending, hc]
      simp [neverBlocksFrom]
    cases ht : xev.translatable with
    | false =>
      rw [loop_cons_skip s ev calls xev rest ht]
      exact ih _ hc'
    | true =>
      rw [(loop_cons_take s ev calls xev rest ht).2.2.1]
      exact hc'

theorem poll_state (s : State) (queue : List XEvent) :
    (ferdek_event_poll s queue).state = s := by
  by_cases hd : s.display = 0
  · unfold ferdek_event_poll
    simp [hd]
  · rw [poll_open s _ hd]
    generalize ([] : List Call) = calls
    induction queue generalizing calls with
    | nil => simp [ferdek_event_poll_loop]
    | cons xev rest ih =>
      cases ht : xev.translatable with
      | false =>
        rw [loop_cons_skip s noEvent calls xev rest ht]
        exact ih _
      | true => exact (loop_cons_take s noEvent calls xev rest ht).2.1

/-- C16: `ferdek_event_poll` never waits. With no display it returns `{0, 0, 0, 0}`
without any call, the queue and the globals untouched; on an open session with an empty
queue it returns `{0, 0, 0, 0}` after one `XPending`, globals untouched; and for every
state and queue it leaves the globals unchanged and calls `XNextEvent` only directly
after an `XPending` that reported a queued notification. -/
theorem poll_never_waits (s : State) (queue : List XEvent) :
    (s.display = 0 →
      ferdek_event_poll s queue =
        { state := s, event := { type := 0, key := 0, x := 0, y := 0 }, queue := queue,
          calls := [] }) ∧
    (s.display ≠ 0 →
      ferdek_event_poll s [] =
        { state := s, event := { type := 0, key := 0, x := 0, y := 0 }, queue := [],
          calls := [Call.XPending s.display 0] }) ∧
    (ferdek_event_poll s queue).state = s ∧
    neverBlocks (ferdek_event_poll s queue).calls = true := by
  refine ⟨?_, ?_, poll_state s queue, ?_⟩
  · intro hd
    unfold ferdek_event_poll
    simp [hd]
  · intro hd
    rw [poll_open s _ hd]
    simp [ferdek_event_poll_loop, noEvent]
  · by_cases hd : s.display = 0
    · unfold ferdek_event_poll
      simp [hd, neverBlocks, neverBlocksFrom]
    · rw [poll_open s _ hd]
      exact loop_neverBlocks s noEvent queue [] rfl

theorem poll_never_waits_witness :
    State.init.display = 0 ∧ session64x48.display ≠ 0 ∧
    ferdek_event_poll State.init [samplePress] =
      { state := State.init, event := { type := 0, key := 0, x := 0, y := 0 },
        queue := [samplePress], calls := [] } ∧
    ferdek_event_poll session64x48 [] =
      { state := session64x48, event := { type := 0, key := 0, x := 0, y := 0 }, queue := [],
        calls := [Call.XPending session64x48.display 0] } :=
  ⟨rfl, by decide, (poll_never_waits State.init [samplePress]).1 rfl,
    (poll_never_waits session64x48 []).2.1 (by decide)⟩

theorem loop_event_type (s : State) (queue : List XEvent) :
    ∀ calls : List Call,
      (ferdek_event_poll_loop s noEvent calls queue).event.type = 0 ∨
      ∃ pre e post, queue = pre ++ e :: post ∧ (∀ p ∈ pre, p.translatable = false) ∧
        e.translatable = true ∧
        (ferdek_event_poll_loop s noEvent calls queue).event =
          (ferdek_event_poll_loop State.init noEvent [] [e]).event := by
  induction queue with
  | nil =>
    intro calls
    left
    simp [ferdek_event_poll_loop, noEvent]
  | cons xev rest ih =>
    intro calls
    cases ht : xev.translatable with
    | false =>
      rw [loop_cons_skip s noEvent calls xev rest ht]
      rcases ih (calls ++ [Call.XPending s.display (rest.length + 1),
        Call.XNextEvent s.display]) with h | ⟨pre, e, post, hq, hpre, he, hev⟩
      · exact Or.inl h
      · refine Or.inr ⟨xev :: pre, e, post, by rw [hq]; rfl, ?_, he, hev⟩
        intro p hp
        rcases List.mem_cons.mp hp with h | h
        · rw [h]; exact ht
        · exact hpre p h
    | true =>
      exact Or.inr ⟨[], xev, rest, rfl, fun p hp => absurd hp (List.not_mem_nil p), ht,
        (loop_cons_take s noEvent calls xev rest ht).2.2.2⟩

theorem translate_cases (e : XEvent) (he : e.translatable = true) :
    (e.type = KeyPress ∧ (ferdek_event_poll_loop State.init noEvent [] [e]).event =
      { type := 1, key := wrapInt e.keysym, x := 0, y := 0 }) ∨
    (e.type = KeyRelease ∧ (ferdek_event_poll_loop State.init noEvent [] [e]).event =
      { type := 2, key := wrapInt e.keysym, x := 0, y := 0 }) ∨
    (e.type = ButtonPress ∧ (ferdek_event_poll_loop State.init noEvent [] [e]).event =
      { type := 3, key := wrapInt e.button, x := wrapInt (Int.tdiv e.x 4),
        y := wrapInt (Int.tdiv e.y 4) }) ∨
    (e.type = ClientMessage ∧ (ferdek_event_poll_loop State.init noEvent [] [e]).event =
      { type := 4, key := 0, x := 0, y := 0 }) := by
  simp only [XEvent.translatable, Bool.or_eq_true, decide_eq_true_eq] at he
  rw [ferdek_event_poll_loop]
  rcases he with ((h | h) | h) | h
  · exact Or.inl ⟨h, by simp [h, noEvent]⟩
  · exact Or.inr (Or.inl ⟨h, by simp [h, KeyPress, KeyRelease, noEvent]⟩)
  · exact Or.inr (Or.inr (Or.inl ⟨h, by simp [h, KeyPress, KeyRelease, ButtonPress, noEvent]⟩))
  · exact Or.inr (Or.inr (Or.inr
      ⟨h, by simp [h, KeyPress, KeyRelease, ButtonPress, ClientMessage, noEvent]⟩))

theorem poll_event_cases (s : State) (queue : List XEvent) :
    (ferdek_event_poll s queue).event.type = 0 ∨
    ∃ pre e post, queue = pre ++ e :: post ∧ (∀ p ∈ pre, p.translatable = false) ∧
      e.translatable = true ∧
      (ferdek_event_poll s queue).event =
        (ferdek_event_poll_loop State.init noEvent [] [e]).event := by
  by_cases hd : s.display = 0
  · left
    unfold ferdek_event_poll
    simp [hd]
  · rw [poll_open s _ hd]
    exact loop_event_type s queue []

/-- C17: every event `ferdek_event_poll` returns has `type` in 0..4; when the oldest
translatable notification is a key press the event is `{1, key symbol, 0, 0}`, a key
release gives `{2, key symbol, 0, 0}`, a client message gives `{4, 0, 0, 0}`; `type = 3`
is returned only when the notification consumed is a button press; and
`caml_ferdek_event_poll` stores `type`, `key`, `x`, `y` in fields 0..3, so unboxing the
tuple gives back the four fields in that order. -/
theorem poll_event_encoding {V : Type} (Val_int : Int → V) (s : State)
    (pre post : List XEvent) (e : XEvent)
    (hd : s.display ≠ 0) (hpre : ∀ p ∈ pre, p.translatable = false) :
    (∀ (s' : State) (q : List XEvent),
      (ferdek_event_poll s' q).event.type = 0 ∨ (ferdek_event_poll s' q).event.type = 1 ∨
      (ferdek_event_poll s' q).event.type = 2 ∨ (ferdek_event_poll s' q).event.type = 3 ∨
      (ferdek_event_poll s' q).event.type = 4) ∧
    (e.type = KeyPress →
      (ferdek_event_poll s (pre ++ e :: post)).event =
        { type := 1, key := wrapInt e.keysym, x := 0, y := 0 } ∧
      (e.keysym < 2147483648 → (ferdek_event_poll s (pre ++ e :: post)).event.key = e.keysym)) ∧
    (e.type = KeyRelease →
      (ferdek_event_poll s (pre ++ e :: post)).event =
        { type := 2, key := wrapInt e.keysym, x := 0, y := 0 } ∧
      (e.keysym < 2147483648 → (ferdek_event_poll s (pre ++ e :: post)).event.key = e.keysym)) ∧
    (e.type = ClientMessage →
      (ferdek_event_poll s (pre ++ e :: post)).event = { type := 4, key := 0, x := 0, y := 0 }) ∧
    (∀ (s' : State) (q : List XEvent), (ferdek_event_poll s' q).event.type = 3 →
      ∃ pre' b post', q = pre' ++ b :: post' ∧ (∀ p ∈ pre', p.translatable = false) ∧
        b.type = ButtonPress) ∧
    (∀ (s' : State) (q : List XEvent),
      caml_ferdek_event_poll Val_int s' q =
        [Val_int (ferdek_event_poll s' q).event.type, Val_int (ferdek_event_poll s' q).event.key,
         Val_int (ferdek_event_poll s' q).event.x, Val_int (ferdek_event_poll s' q).event.y] ∧
      ∀ Int_val : V → Int, (∀ v, Int_val (Val_int v) = v) →
        (caml_ferdek_event_poll Val_int s' q).map Int_val =
          [(ferdek_event_poll s' q).event.type, (ferdek_event_poll s' q).event.key,
           (ferdek_event_poll s' q).event.x, (ferdek_event_poll s' q).event.y]) := by
  have hkind : ∀ e' : XEvent, e'.translatable = true →
      (ferdek_event_poll s (pre ++ e' :: post)).event =
        (ferdek_event_poll_loop State.init noEvent [] [e']).event := by
    intro e' he'
    rw [poll_open s _ hd]
    exact (loop_skip_then_take s noEvent pre post e' hpre he' []).1
  refine ⟨?_, ?_, ?_, ?_, ?_, ?_⟩
  · intro s' q
    rcases poll_event_cases s' q with h | ⟨_, b, _, _, _, hb, hev⟩
    · exact Or.inl h
    · rw [hev]
      rcases translate_cases b hb with h | h | h | h <;> rw [h.2] <;> simp
  · intro he
    have ht : e.translatable = true := by simp [XEvent.translatable, he]
    have hev : (ferdek_event_poll s (pre ++ e :: post)).event =
        { type := 1, key := wrapInt e.keysym, x := 0, y := 0 } := by
      rw [hkind e ht]
      rcases translate_cases e ht with h | h | h | h
      · exact h.2
      · rw [he] at h; exact absurd h.1 (by decide)
      · rw [he] at h; exact absurd h.1 (by decide)
      · rw [he] at h; exact absurd h.1 (by decide)
    refine ⟨hev, fun hk => ?_⟩
    rw [hev]
    exact wrapInt_of_range _ (by omega) (by omega)
  · intro he
    have ht : e.translatable = true := by simp [XEvent.translatable, he]
    have hev : (ferdek_event_poll s (pre ++ e :: post)).event =
        { type := 2, key := wrapInt e.keysym, x := 0, y := 0 } := by
      rw [hkind e ht]
      rcases translate_cases e ht with h | h | h | h
      · rw [he] at h; exact absurd h.1 (by decide)
      · exact h.2
      · rw [he] at h; exact absurd h.1 (by decide)
      · rw [he] at h; exact absurd h.1 (by decide)
    refine ⟨hev, fun hk => ?_⟩
    rw [hev]
    exact wrapInt_of_range _ (by omega) (by omega)
  · intro he
    have ht : e.translatable = true := by simp [XEvent.translatable, he]
    rw [hkind e ht]
    rcases translate_cases e ht with h | h | h | h
    · rw [he] at h; exact absurd h.1 (by decide)
    · rw [he] at h; exact absurd h.1 (by decide)
    · rw [he] at h; exact absurd h.1 (by decide)
    · exact h.2
  · intro s' q h3
    rcases poll_event_cases s' q with h | ⟨pre', b, post', hq, hpre', hb, hev⟩
    · rw [h] at h3
      exact absurd h3 (by decide)
    · refine ⟨pre', b, post', hq, hpre', ?_⟩
      rw [hev] at h3
      rcases translate_cases b hb with h | h | h | h
      · rw [h.2] at h3; simp at h3
      · rw [h.2] at h3; simp at h3
      · exact h.1
      · rw [h.2] at h3; simp at h3
  · intro s' q
    refine ⟨rfl, ?_⟩
    intro Int_val hinv
    simp [caml_ferdek_event_poll, hinv]

theorem poll_event_encoding_witness :
    session64x48.display ≠ 0 ∧ (∀ p ∈ [sampleMotion], p.translatable = false) ∧
    sampleKeyPress.type = KeyPress ∧
    (ferdek_event_poll session64x48 ([sampleMotion] ++ sampleKeyPress :: [samplePress])).event =
      { type := 1, key := 97, x := 0, y := 0 } :=
  ⟨by decide, by decide, rfl,
    ((poll_event_encoding (fun v : Int => 2 * v + 1) session64x48 [sampleMotion] [samplePress]
      sampleKeyPress (by decide) (by decide)).2.1 rfl).1⟩

/-! ## Frame and index properties -/

theorem index_injective (w x y x' y' : Int) (hx0 : 0 ≤ x) (hx : x < w) (hx0' : 0 ≤ x')
    (hx' : x' < w) (h : y * w + x = y' * w + x') : x = x' ∧ y = y' := by
  have hw : 0 < w := lt_of_le_of_lt hx0 hx
  have hy : y = y' := by
    rcases lt_trichotomy y y' with hlt | heq | hgt
    · exfalso
      have h1 : (y + 1) * w ≤ y' * w := mul_le_mul_of_nonneg_right (by omega) hw.le
      have h2 : (y + 1) * w = y * w + w := by ring
      omega
    · exact heq
    · exfalso
      have h1 : (y' + 1) * w ≤ y * w := mul_le_mul_of_nonneg_right (by omega) hw.le
      have h2 : (y' + 1) * w = y' * w + w := by ring
      omega
  subst hy
  exact ⟨by omega, rfl⟩

/-- C18 (amended): on a session holding a `width * height` framebuffer whose product
`width * height` is representable as an `int`, `ferdek_pixel_draw` at an in-bounds
`(x, y)` succeeds and changes at most that cell: `ferdek_framebuffer_get` returns the same
value as before at every other in-bounds `(x', y')`, and dimensions, palette, display,
window, drawing context and image are unchanged. -/
theorem draw_changes_one_cell (s : State) (width height x y x' y' : Int) (c : Nat)
    (hs : HasFramebuffer s width height)
    (hx0 : 0 ≤ x) (hx : x < width) (hy0 : 0 ≤ y) (hy : y < height)
    (hx0' : 0 ≤ x') (hx' : x' < width) (hy0' : 0 ≤ y') (hy' : y' < height)
    (hne : ¬ (x' = x ∧ y' = y)) :
    ∃ s', ferdek_pixel_draw s x y c = some s' ∧
      ferdek_framebuffer_get s' x' y' = ferdek_framebuffer_get s x' y' ∧
      s'.fb_width = s.fb_width ∧ s'.fb_height = s.fb_height ∧ s'.palette = s.palette ∧
      s'.display = s.display ∧ s'.window = s.window ∧ s'.gc = s.gc ∧
      s'.ximage = s.ximage := by
  have hg := inRange_guard s width height x y hs hx0 hx hy0 hy
  obtain ⟨hw, hh, hwh, addr, cells, hfb, hlen⟩ := hs
  obtain ⟨h1, h2, h3⟩ := index_bounds width height x y hx0 hx hy0 hy
  obtain ⟨h1', h2', h3'⟩ := index_bounds width height x' y' hx0' hx' hy0' hy'
  have hidx := index_wrap width height x y hx0 hx hy0 hy hwh
  have hlt : (y * width + x).toNat < cells.length := by omega
  refine ⟨{ s with framebuffer := Ptr.block addr (cells.set (y * width + x).toNat (c % 256)) },
    ?_, ?_, rfl, rfl, rfl, rfl, rfl, rfl, rfl⟩
  · unfold ferdek_pixel_draw
    rw [if_neg hg, hfb, hw, hidx]
    simp [Ptr.store, h2, hlt]
  · rw [get_inBounds
        { s with framebuffer := Ptr.block addr (cells.set (y * width + x).toNat (c % 256)) }
        width height x' y' addr (cells.set (y * width + x).toNat (c % 256)) hw hh hwh rfl
        hx0' hx' hy0' hy',
      get_inBounds s width height x' y' addr cells hw hh hwh hfb hx0' hx' hy0' hy']
    have hidxne : (y * width + x).toNat ≠ (y' * width + x').toNat := by
      intro heq
      have : y * width + x = y' * width + x' := by omega
      obtain ⟨e1, e2⟩ := index_injective width x y x' y' hx0 hx hx0' hx' this
      exact hne ⟨e1.symm, e2.symm⟩
    rw [List.getElem?_set_ne hidxne]

theorem draw_changes_one_cell_witness :
    HasFramebuffer sampleSession 2 2 ∧ ¬ ((0 : Int) = 1 ∧ (1 : Int) = 1) ∧
    ∃ s', ferdek_pixel_draw sampleSession 1 1 5 = some s' ∧
      ferdek_framebuffer_get s' 0 1 = ferdek_framebuffer_get sampleSession 0 1 ∧
      s'.palette = sampleSession.palette :=
  have hs : HasFramebuffer sampleSession 2 2 :=
    ⟨rfl, rfl, by decide, 4, [0, 0, 0, 0], rfl, by decide⟩
  have h := draw_changes_one_cell sampleSession 2 2 1 1 0 1 5 hs (by decide) (by decide)
    (by decide) (by decide) (by decide) (by decide) (by decide) (by decide) (by decide)
  ⟨hs, by decide, h.elim (fun s' hs' => ⟨s', hs'.1, hs'.2.1, hs'.2.2.2.2.1⟩)⟩

/-- C20: on an open session, when the oldest translatable notification is a button press
at window pixel `(px, py)`: if `(px, py)` lies in the 4 x 4 block with corner
`(4x, 4y)` that `ferdek_screen_refresh` fills for cell `(x, y)`, the event carries
exactly `(x, y)`; and if `0 <= px < 4 * width`, `0 <= py < 4 * height`, the event
coordinates are in bounds of a `width * height` framebuffer. -/
theorem press_inverts_magnification (s : State) (pre post : List XEvent) (e : XEvent)
    (hd : s.display ≠ 0) (hpre : ∀ p ∈ pre, p.translatable = false)
    (he : e.type = ButtonPress)
    (hx : -2147483648 ≤ e.x ∧ e.x < 2147483648) (hy : -2147483648 ≤ e.y ∧ e.y < 2147483648) :
    (∀ x y : Int, 0 ≤ x → 0 ≤ y → 4 * x ≤ e.x → e.x < 4 * x + 4 → 4 * y ≤ e.y →
      e.y < 4 * y + 4 →
      wrapInt (x * 4) = 4 * x ∧ wrapInt (y * 4) = 4 * y ∧
      (ferdek_event_poll s (pre ++ e :: post)).event.x = x ∧
      (ferdek_event_poll s (pre ++ e :: post)).event.y = y) ∧
    (∀ width height : Int, 0 ≤ e.x → e.x < 4 * width → 0 ≤ e.y → e.y < 4 * height →
      0 ≤ (ferdek_event_poll s (pre ++ e :: post)).event.x ∧
      (ferdek_event_poll s (pre ++ e :: post)).event.x < width ∧
      0 ≤ (ferdek_event_poll s (pre ++ e :: post)).event.y ∧
      (ferdek_event_poll s (pre ++ e :: post)).event.y < height) := by
  have hev : (ferdek_event_poll s (pre ++ e :: post)).event =
      { type := 3, key := wrapInt e.button, x := wrapInt (Int.tdiv e.x 4),
        y := wrapInt (Int.tdiv e.y 4) } := by
    rw [poll_open s _ hd,
      (loop_skip_then_take s noEvent pre post e hpre (button_translatable e he) []).1,
      translate_button e he]
  have hbx := tdiv4_bounds e.x hx.1 hx.2
  have hby := tdiv4_bounds e.y hy.1 hy.2
  rw [hev]
  simp only []
  rw [wrapInt_of_range _ hbx.1 hbx.2, wrapInt_of_range _ hby.1 hby.2]
  refine ⟨?_, ?_⟩
  · intro x y hx0 hy0 h1 h2 h3 h4
    rw [Int.tdiv_eq_ediv (by omega) (by decide), Int.tdiv_eq_ediv (by omega) (by decide)]
    refine ⟨?_, ?_, by omega, by omega⟩
    · rw [wrapInt_of_range _ (by omega) (by omega)]
      omega
    · rw [wrapInt_of_range _ (by omega) (by omega)]
      omega
  · intro width height h1 h2 h3 h4
    rw [Int.tdiv_eq_ediv h1 (by decide), Int.tdiv_eq_ediv h3 (by decide)]
    refine ⟨by omega, by omega, by omega, by omega⟩

theorem press_inverts_magnification_witness :
    session64x48.display ≠ 0 ∧ samplePress.type = ButtonPress ∧
    (ferdek_event_poll session64x48 ([sampleMotion] ++ samplePress :: [])).event.x = 10 ∧
    (ferdek_event_poll session64x48 ([sampleMotion] ++ samplePress :: [])).event.y = 10 :=
  have h := (press_inverts_magnification session64x48 [sampleMotion] [] samplePress
    (by decide) (by decide) rfl (by decide) (by decide)).1 10 10
    (by decide) (by decide) (by decide) (by decide) (by decide) (by decide)
  ⟨by decide, rfl, h.2.2.1, h.2.2.2⟩

theorem draw_inBounds (s : State) (width height x y : Int) (c addr : Nat) (cells : List Nat)
    (hw : s.fb_width = width) (hh : s.fb_height = height) (hwh : width * height < 2147483648)
    (hfb : s.framebuffer = Ptr.block addr cells) (hlen : (cells.length : Int) = width * height)
    (hx0 : 0 ≤ x) (hx : x < width) (hy0 : 0 ≤ y) (hy : y < height) :
    ferdek_pixel_draw s x y c =
      some
        { s with framebuffer := Ptr.block addr (cells.set (y * width + x).toNat (c % 256)) } := by
  have hg := inRange_guard s width height x y ⟨hw, hh, hwh, addr, cells, hfb, hlen⟩
    hx0 hx hy0 hy
  obtain ⟨h1, h2, h3⟩ := index_bounds width height x y hx0 hx hy0 hy
  have hidx := index_wrap width height x y hx0 hx hy0 hy hwh
  have hlt : (y * width + x).toNat < cells.length := by omega
  unfold ferdek_pixel_draw
  rw [if_neg hg, hfb, hw, hidx]
  simp [Ptr.store, h2, hlt]

theorem draw_outside_block (s : State) (x y : Int) (c addr : Nat) (cells : List Nat)
    (hfb : s.framebuffer = Ptr.block addr cells)
    (hx0 : 0 ≤ x) (hx : x < s.fb_width) (hy0 : 0 ≤ y) (hy : y < s.fb_height)
    (hidx : cells.length ≤ (wrapInt (wrapInt (y * s.fb_width) + x)).toNat) :
    ferdek_pixel_draw s x y c = none := by
  have hg : ¬ (s.framebuffer.isNull = true ∨ x < 0 ∨ x ≥ s.fb_width ∨ y < 0 ∨ y ≥ s.fb_height) := by
    rw [hfb]
    simp only [Ptr.isNull]
    intro hcon
    rcases hcon with h | h | h | h | h
    · exact Bool.noConfusion h
    · omega
    · omega
    · omega
    · omega
  unfold ferdek_pixel_draw
  rw [if_neg hg, hfb]
  simp only [Ptr.store]
  rw [if_neg (by omega)]
  rfl

/-- C19 (counterexample): with `width = 65536`, `height = 65537` the `int` product wraps
to 65536, so a successful `ferdek_window_open` allocates 65536 cells; the in-bounds
coordinate `(0, 1)` passes the bounds check and its index 65536 is not below the
allocated size, and `ferdek_pixel_draw` there writes outside the block. -/
theorem index_not_safe_when_product_wraps :
    (0 : Int) < 65536 ∧ (0 : Int) < 65537 ∧ (0 : Int) ≤ 0 ∧ (0 : Int) < 65536 ∧
    (0 : Int) ≤ 1 ∧ (1 : Int) < 65537 ∧
    toSize (wrapInt (65536 * 65537)) = 65536 ∧
    wrapInt (wrapInt (1 * 65536) + 0) = 65536 ∧
    ¬ ((wrapInt (wrapInt (1 * 65536) + 0)).toNat < toSize (wrapInt (65536 * 65537))) ∧
    (ferdek_window_open State.init sampleHost 65536 65537 "t").2.1 = 1 ∧
    ferdek_pixel_draw (ferdek_window_open State.init sampleHost 65536 65537 "t").1 0 1 7
      = none := by
  have hn : toSize (wrapInt (65536 * 65537)) = 65536 := by decide
  have hi : wrapInt (wrapInt (1 * 65536) + 0) = 65536 := by decide
  have hok : (ferdek_window_open State.init sampleHost 65536 65537 "t").2.1 = 1 := rfl
  refine ⟨by decide, by decide, by decide, by decide, by decide, by decide, hn, hi, ?_, hok, ?_⟩
  · rw [hn, hi]
    decide
  · obtain ⟨hst, -⟩ := open_success_state State.init sampleHost 65536 65537 "t" hok
    have hfw : (ferdek_window_open State.init sampleHost 65536 65537 "t").1.fb_width = 65536 := by
      rw [hst]; rfl
    have hfh : (ferdek_window_open State.init sampleHost 65536 65537 "t").1.fb_height = 65537 := by
      rw [hst]; rfl
    have hfb : (ferdek_window_open State.init sampleHost 65536 65537 "t").1.framebuffer =
        Ptr.block sampleHost.fb (List.replicate (toSize (wrapInt (65536 * 65537))) 0) := by
      rw [hst]; rfl
    apply draw_outside_block _ 0 1 7 sampleHost.fb _ hfb
    · decide
    · rw [hfw]; decide
    · decide
    · rw [hfh]; decide
    · rw [hfw, hi, List.length_replicate, hn]
      decide

/-- C19 (amended): for every `width > 0`, `height > 0` whose product is representable as
an `int`, and all in-bounds `(x, y)`, `(x', y')`: the index the code computes is
`y * width + x`, it is non-negative and below the number of cells `ferdek_window_open`
asks `calloc` for, equal indices come from equal coordinates, and on every session a
successful `ferdek_window_open(width, height)` leaves, `ferdek_pixel_draw` and
`ferdek_framebuffer_get` at `(x, y)` stay inside the block. -/
theorem index_safe_injective (width height x y x' y' : Int)
    (hw : 0 < width) (hh : 0 < height) (hwh : width * height < 2147483648)
    (hx0 : 0 ≤ x) (hx : x < width) (hy0 : 0 ≤ y) (hy : y < height)
    (hx0' : 0 ≤ x') (hx' : x' < width) (hy0' : 0 ≤ y') (hy' : y' < height) :
    wrapInt (wrapInt (y * width) + x) = y * width + x ∧
    0 ≤ wrapInt (wrapInt (y * width) + x) ∧
    (wrapInt (wrapInt (y * width) + x)).toNat < toSize (wrapInt (width * height)) ∧
    (toSize (wrapInt (width * height)) : Int) = width * height ∧
    (wrapInt (wrapInt (y * width) + x) = wrapInt (wrapInt (y' * width) + x') →
      x = x' ∧ y = y') ∧
    (∀ (s : State) (host : Host) (title : String) (c : Nat),
      (ferdek_window_open s host width height title).2.1 = 1 →
      ferdek_pixel_draw (ferdek_window_open s host width height title).1 x y c ≠ none ∧
      ferdek_framebuffer_get (ferdek_window_open s host width height title).1 x y ≠ none) := by
  have hnn : 0 ≤ width * height := (mul_pos hw hh).le
  have hn : toSize (wrapInt (width * height)) = (width * height).toNat := by
    rw [wrapInt_of_range _ (by omega) hwh, toSize_of_nonneg _ hnn hwh]
  obtain ⟨h1, h2, h3⟩ := index_bounds width height x y hx0 hx hy0 hy
  have hidx := index_wrap width height x y hx0 hx hy0 hy hwh
  have hidx' := index_wrap width height x' y' hx0' hx' hy0' hy' hwh
  refine ⟨hidx, by rw [hidx]; exact h2, by rw [hidx, hn]; omega,
    by rw [hn]; exact Int.toNat_of_nonneg hnn, ?_, ?_⟩
  · intro heq
    rw [hidx, hidx'] at heq
    exact index_injective width x y x' y' hx0 hx hx0' hx' heq
  · intro s host title c hok
    obtain ⟨hfw, hfh, _, addr, cells, hfb, hlen⟩ :=
      open_hasFramebuffer s host width height title hw hh hwh hok
    refine ⟨?_, ?_⟩
    · rw [draw_inBounds _ width height x y c addr cells hfw hfh hwh hfb hlen hx0 hx hy0 hy]
      exact Option.some_ne_none _
    rw [get_inBounds _ width height x y addr cells hfw hfh hwh hfb hx0 hx hy0 hy]
    have hlt : (y * width + x).toNat < cells.length := by omega
    rw [List.getElem?_eq_getElem hlt]
    exact Option.some_ne_none _

theorem index_safe_injective_witness :
    (0 : Int) < 2 ∧ (2 : Int) * 2 < 2147483648 ∧
    wrapInt (wrapInt (1 * 2) + 1) = 1 * 2 + 1 ∧
    (wrapInt (wrapInt (1 * 2) + 1)).toNat < toSize (wrapInt (2 * 2)) ∧
    ferdek_pixel_draw (ferdek_window_open State.init sampleHost 2 2 "t").1 1 1 5 ≠ none :=
  have h := index_safe_injective 2 2 1 1 0 1 (by decide) (by decide) (by decide) (by decide)
    (by decide) (by decide) (by decide) (by decide) (by decide) (by decide) (by decide)
  ⟨by decide, by decide, h.1, h.2.2.1, (h.2.2.2.2.2 State.init sampleHost "t" 5 rfl).1⟩

theorem foldlM_emit {α β : Type} (f : List β → α → Option (List β)) (g : α → List β)
    (l : List α) (h : ∀ x ∈ l, ∀ acc, f acc x = some (acc ++ g x)) :
    ∀ acc, l.foldlM f acc = some (acc ++ l.flatMap g) := by
  induction l with
  | nil =>
    intro acc
    simp
  | cons x xs ih =>
    intro acc
    rw [List.foldlM_cons, h x (List.mem_cons_self x xs) acc]
    simp only [Option.some_bind, Option.bind_eq_bind]
    rw [ih (fun y hy => h y (List.mem_cons_of_mem x hy))]
    simp

theorem image_fill_ok (pal : Palette) (addr a : Nat) (cells words : List Nat) :
    ∀ n, n ≤ cells.length → n ≤ words.length →
      ∃ words', words'.length = words.length ∧
        (List.range n).foldlM
          (fun (d : Ptr) (i : Nat) => do
            let c ← (Ptr.block addr cells).load i
            d.store i (pal.get c % 4294967296)) (Ptr.block a words)
          = some (Ptr.block a words') := by
  intro n
  induction n with
  | zero =>
    intro _ _
    exact ⟨words, rfl, rfl⟩
  | succ n ih =>
    intro h1 h2
    obtain ⟨words', hlen, hq⟩ := ih (by omega) (by omega)
    have hn1 : n < cells.length := by omega
    have hn2 : n < words'.length := by omega
    refine ⟨words'.set n (pal.get cells[n] % 4294967296), by rw [List.length_set]; exact hlen, ?_⟩
    rw [List.range_succ, List.foldlM_append, hq]
    simp [Ptr.load, Ptr.store, List.getElem?_eq_getElem hn1, hn2]

theorem refresh_cell (W H : Nat) (addr : Nat) (cells : List Nat)
    (hwh : (W : Int) * H < 2147483648) (hw4 : 4 * (W : Int) < 2147483648)
    (hh4 : 4 * (H : Int) < 2147483648) (hlen : (cells.length : Int) = (W : Int) * H)
    (sy sx : Nat) (hsy : sy < H) (hsx : sx < W) :
    (Ptr.block addr cells).load (wrapInt (wrapInt ((sy : Int) * (W : Int)) + (sx : Int)))
      = some (cells.getD (sy * W + sx) 0) ∧
    wrapInt ((sx : Int) * 4) = 4 * (sx : Int) ∧ wrapInt ((sy : Int) * 4) = 4 * (sy : Int) := by
  have hx0 : (0 : Int) ≤ sx := Int.ofNat_nonneg sx
  have hy0 : (0 : Int) ≤ sy := Int.ofNat_nonneg sy
  have hx : (sx : Int) < W := by omega
  have hy : (sy : Int) < H := by omega
  obtain ⟨h1, h2, h3⟩ := index_bounds W H sx sy hx0 hx hy0 hy
  have hidx := index_wrap W H sx sy hx0 hx hy0 hy hwh
  have hcast : (sy : Int) * (W : Int) + (sx : Int) = ((sy * W + sx : Nat) : Int) := by
    push_cast
    ring
  have hlt : sy * W + sx < cells.length := by
    have : ((sy * W + sx : Nat) : Int) < (cells.length : Int) := by
      rw [← hcast, hlen]
      exact h3
    exact_mod_cast this
  refine ⟨?_, ?_, ?_⟩
  · have htn : ((sy : Int) * (W : Int) + (sx : Int)).toNat = sy * W + sx := by omega
    rw [hidx]
    simp only [Ptr.load]
    rw [if_pos h2, htn, List.getD_eq_getElem?_getD, List.getElem?_eq_getElem hlt]
    rfl
  · rw [wrapInt_of_range _ (by omega) (by omega)]
    omega
  · rw [wrapInt_of_range _ (by omega) (by omega)]
    omega

theorem refresh_fills (s : State) (width height : Int) (img : XImage) (addr a : Nat)
    (cells words : List Nat)
    (hd : s.display ≠ 0) (hwin : s.window ≠ 0)
    (hw : s.fb_width = width) (hh : s.fb_height = height)
    (hw0 : 0 ≤ width) (hh0 : 0 ≤ height)
    (hw4 : 4 * width < 2147483648) (hh4 : 4 * height < 2147483648)
    (hwh : width * height < 2147483648)
    (hfb : s.framebuffer = Ptr.block addr cells) (hlen : (cells.length : Int) = width * height)
    (himg : s.ximage = some img) (hdata : img.data = Ptr.block a words)
    (hwords : cells.length ≤ words.length) :
    ∃ words', ferdek_screen_refresh s =
      some ({ s with ximage := some { img with data := Ptr.block a words' } },
        specFills s cells ++ [Call.XFlush s.display]) := by
  obtain ⟨W, rfl⟩ := Int.eq_ofNat_of_zero_le hw0
  obtain ⟨H, rfl⟩ := Int.eq_ofNat_of_zero_le hh0
  obtain ⟨d, w, g, xi, fb, fw, fh, pal⟩ := s
  obtain ⟨iid, idata⟩ := img
  simp only at hd hwin hw hh hfb himg hdata
  subst hw hh hfb himg hdata
  have hn : (wrapInt ((W : Int) * (H : Int))).toNat = cells.length := by
    rw [wrapInt_of_range _ (by omega) hwh, ← hlen]
    rfl
  obtain ⟨words', _, hfill⟩ := image_fill_ok pal addr a cells words cells.length (le_refl _) hwords
  have hrows := foldlM_emit
    (fun (acc : List Call) (sy : Nat) =>
      (List.range W).foldlM
        (fun (acc : List Call) (sx : Nat) => do
          let c ← (Ptr.block addr cells).load
            (wrapInt (wrapInt ((sy : Int) * (W : Int)) + (sx : Int)))
          pure (acc ++ [Call.XSetForeground d g (pal.get c),
                        Call.XFillRectangle d w g (wrapInt ((sx : Int) * 4))
                          (wrapInt ((sy : Int) * 4)) 4 4])) acc)
    (fun sy => (List.range W).flatMap (fun sx =>
      [Call.XSetForeground d g (pal.get (cells.getD (sy * W + sx) 0)),
       Call.XFillRectangle d w g (4 * (sx : Int)) (4 * (sy : Int)) 4 4]))
    (List.range H)
    (by
      intro sy hsy acc
      have hsy' : sy < H := List.mem_range.mp hsy
      apply foldlM_emit
      intro sx hsx acc'
      have hsx' : sx < W := List.mem_range.mp hsx
      obtain ⟨c1, c2, c3⟩ := refresh_cell W H addr cells hwh hw4 hh4 hlen sy sx hsy' hsx'
      rw [c1, c2, c3]
      rfl)
    []
  refine ⟨words', ?_⟩
  unfold ferdek_screen_refresh
  simp only [hd, hwin, Ptr.isNull, Int.toNat_ofNat, hn, false_or, Bool.false_eq_true,
    if_false, or_self]
  rw [hfill]
  simp only [Option.some_bind, Option.bind_eq_bind, Int.toNat_ofNat]
  simp only [Option.bind_eq_bind] at hrows
  rw [hrows]
  simp [specFills]

theorem refresh_absent (s : State)
    (h : s.display = 0 ∨ s.window = 0 ∨ s.framebuffer.isNull = true ∨ s.ximage = none) :
    ferdek_screen_refresh s = some (s, []) := by
  unfold ferdek_screen_refresh
  cases hx : s.ximage with
  | none => rfl
  | some img =>
    have h' : s.display = 0 ∨ s.window = 0 ∨ s.framebuffer.isNull = true := by
      rcases h with h | h | h | h
      · exact Or.inl h
      · exact Or.inr (Or.inl h)
      · exact Or.inr (Or.inr h)
      · rw [hx] at h
        exact absurd h (Option.some_ne_none img)
    simp only [if_pos h']

/-! ## Sessions whose dimensions overflow `int` -/

theorem get_outside_block (s : State) (x y : Int) (addr : Nat) (cells : List Nat)
    (hfb : s.framebuffer = Ptr.block addr cells)
    (hx0 : 0 ≤ x) (hx : x < s.fb_width) (hy0 : 0 ≤ y) (hy : y < s.fb_height)
    (hidx : cells.length ≤ (wrapInt (wrapInt (y * s.fb_width) + x)).toNat) :
    ferdek_framebuffer_get s x y = none := by
  have hg : ¬ (s.framebuffer.isNull = true ∨ x < 0 ∨ x ≥ s.fb_width ∨ y < 0 ∨ y ≥ s.fb_height) := by
    rw [hfb]
    simp only [Ptr.isNull]
    intro hcon
    rcases hcon with h | h | h | h | h
    · exact Bool.noConfusion h
    · omega
    · omega
    · omega
    · omega
  unfold ferdek_framebuffer_get
  rw [if_neg hg, hfb]
  simp only [Ptr.load]
  split
  · exact List.getElem?_eq_none hidx
  · rfl

theorem get_at_index (s : State) (x y : Int) (addr i : Nat) (cells : List Nat)
    (hfb : s.framebuffer = Ptr.block addr cells)
    (hx0 : 0 ≤ x) (hx : x < s.fb_width) (hy0 : 0 ≤ y) (hy : y < s.fb_height)
    (hidx : wrapInt (wrapInt (y * s.fb_width) + x) = (i : Int)) :
    ferdek_framebuffer_get s x y = cells[i]? := by
  have hg : ¬ (s.framebuffer.isNull = true ∨ x < 0 ∨ x ≥ s.fb_width ∨ y < 0 ∨ y ≥ s.fb_height) := by
    rw [hfb]
    simp only [Ptr.isNull]
    intro hcon
    rcases hcon with h | h | h | h | h
    · exact Bool.noConfusion h
    · omega
    · omega
    · omega
    · omega
  unfold ferdek_framebuffer_get
  rw [if_neg hg, hfb, hidx]
  simp only [Ptr.load]
  rw [if_pos (Int.ofNat_nonneg i)]
  rfl

theorem draw_at_index (s : State) (x y : Int) (c addr i : Nat) (cells : List Nat)
    (hfb : s.framebuffer = Ptr.block addr cells)
    (hx0 : 0 ≤ x) (hx : x < s.fb_width) (hy0 : 0 ≤ y) (hy : y < s.fb_height)
    (hidx : wrapInt (wrapInt (y * s.fb_width) + x) = (i : Int)) (hi : i < cells.length) :
    ferdek_pixel_draw s x y c =
      some { s with framebuffer := Ptr.block addr (cells.set i (c % 256)) } := by
  have hg : ¬ (s.framebuffer.isNull = true ∨ x < 0 ∨ x ≥ s.fb_width ∨ y < 0 ∨ y ≥ s.fb_height) := by
    rw [hfb]
    simp only [Ptr.isNull]
    intro hcon
    rcases hcon with h | h | h | h | h
    · exact Bool.noConfusion h
    · omega
    · omega
    · omega
    · omega
  unfold ferdek_pixel_draw
  rw [if_neg hg, hfb, hidx]
  simp only [Ptr.store]
  rw [if_pos ⟨Int.ofNat_nonneg i, by simpa using hi⟩]
  rfl

theorem clear_block (s : State) (c addr : Nat) (cells : List Nat)
    (hfb : s.framebuffer = Ptr.block addr cells)
    (hn : toSize (wrapInt (s.fb_width * s.fb_height)) = cells.length) :
    ferdek_screen_clear s c =
      some { s with framebuffer := Ptr.block addr (List.replicate cells.length (c % 256)) } := by
  unfold ferdek_screen_clear
  rw [hn, hfb]
  simp [Ptr.isNull, Ptr.fill]

theorem wideSession_opened :
    (ferdek_window_open State.init sampleHost 65536 65537 "t").2.1 = 1 ∧
    wideSession.display = 1 ∧ wideSession.window = 2 ∧
    wideSession.fb_width = 65536 ∧ wideSession.fb_height = 65537 ∧
    ∃ cells, wideSession.framebuffer = Ptr.block 4 cells ∧ cells.length = 65536 ∧
      ∀ i, i < 65536 → cells[i]? = some 0 := by
  have hok : (ferdek_window_open State.init sampleHost 65536 65537 "t").2.1 = 1 := rfl
  have hn : toSize (wrapInt (65536 * 65537)) = 65536 := by decide
  obtain ⟨hst, -⟩ := open_success_state State.init sampleHost 65536 65537 "t" hok
  refine ⟨hok, ?_, ?_, ?_, ?_, List.replicate (toSize (wrapInt (65536 * 65537))) 0, ?_, ?_, ?_⟩
  · unfold wideSession; rw [hst]; rfl
  · unfold wideSession; rw [hst]; rfl
  · unfold wideSession; rw [hst]; rfl
  · unfold wideSession; rw [hst]; rfl
  · unfold wideSession; rw [hst]; rfl
  · rw [List.length_replicate, hn]
  · intro i hi
    rw [hn]
    exact List.getElem?_replicate_of_lt hi

/-- C1 (counterexample): on the session a successful `ferdek_window_open(65536, 65537)`
leaves, `(0, 1)` is in bounds of `fb_width x fb_height`, yet `ferdek_pixel_draw(0, 1, 7)`
stores at index 65536 of the 65536-cell block, outside it, so no following
`ferdek_framebuffer_get(0, 1)` returns 7. -/
theorem draw_then_get_fails_when_product_wraps :
    (ferdek_window_open State.init sampleHost 65536 65537 "t").2.1 = 1 ∧
    wideSession.fb_width = 65536 ∧ wideSession.fb_height = 65537 ∧
    (0 : Int) ≤ 0 ∧ (0 : Int) < 65536 ∧ (0 : Int) ≤ 1 ∧ (1 : Int) < 65537 ∧ (7 : Nat) < 256 ∧
    ferdek_pixel_draw wideSession 0 1 7 = none ∧
    ¬ ∃ s', ferdek_pixel_draw wideSession 0 1 7 = some s' ∧
      ferdek_framebuffer_get s' 0 1 = some 7 := by
  obtain ⟨hok, _, _, hfw, hfh, cells, hfb, hlen, _⟩ := wideSession_opened
  have hi : wrapInt (wrapInt (1 * 65536) + 0) = 65536 := by decide
  have hdraw : ferdek_pixel_draw wideSession 0 1 7 = none := by
    apply draw_outside_block wideSession 0 1 7 4 cells hfb
    · decide
    · rw [hfw]; decide
    · decide
    · rw [hfh]; decide
    · rw [hfw, hi, hlen]
      decide
  refine ⟨hok, hfw, hfh, by decide, by decide, by decide, by decide, by decide, hdraw, ?_⟩
  rintro ⟨s', hs', -⟩
  rw [hdraw] at hs'
  exact Option.noConfusion hs'

/-- C2 (counterexample): on the session a successful `ferdek_window_open(65536, 65537)`
leaves, `ferdek_screen_clear(9)` fills the 65536 allocated cells, and the following
`ferdek_framebuffer_get(0, 1)`, in bounds of `fb_width x fb_height`, reads index 65536,
outside the block, instead of returning 9. -/
theorem clear_then_get_fails_when_product_wraps :
    (ferdek_window_open State.init sampleHost 65536 65537 "t").2.1 = 1 ∧
    wideSession.fb_width = 65536 ∧ wideSession.fb_height = 65537 ∧
    (0 : Int) ≤ 0 ∧ (0 : Int) < 65536 ∧ (0 : Int) ≤ 1 ∧ (1 : Int) < 65537 ∧ (9 : Nat) < 256 ∧
    ∃ s', ferdek_screen_clear wideSession 9 = some s' ∧
      ferdek_framebuffer_get s' 0 1 = none ∧ ferdek_framebuffer_get s' 0 1 ≠ some 9 := by
  obtain ⟨hok, _, _, hfw, hfh, cells, hfb, hlen, _⟩ := wideSession_opened
  have hn : toSize (wrapInt (65536 * 65537)) = 65536 := by decide
  have hi : wrapInt (wrapInt (1 * 65536) + 0) = 65536 := by decide
  have hclear := clear_block wideSession 9 4 cells hfb (by rw [hfw, hfh, hn, hlen])
  have hget : ferdek_framebuffer_get
      { wideSession with framebuffer := Ptr.block 4 (List.replicate cells.length (9 % 256)) }
      0 1 = none := by
    apply get_outside_block _ 0 1 4 (List.replicate cells.length (9 % 256)) rfl
    · decide
    · show (0 : Int) < wideSession.fb_width
      rw [hfw]; decide
    · decide
    · show (1 : Int) < wideSession.fb_height
      rw [hfh]; decide
    · show (List.replicate cells.length (9 % 256)).length ≤
        (wrapInt (wrapInt (1 * wideSession.fb_width) + 0)).toNat
      rw [hfw, hi, List.length_replicate, hlen]
      decide
  refine ⟨hok, hfw, hfh, by decide, by decide, by decide, by decide, by decide, _, hclear,
    hget, ?_⟩
  rw [hget]
  exact Option.noConfusion

/-- C18 (counterexample): on the session a successful `ferdek_window_open(65536, 65537)`
leaves, `(0, 65536)` and `(0, 0)` are distinct in-bounds coordinates; the index of
`(0, 65536)` wraps to 0, so `ferdek_pixel_draw(0, 65536, 7)` changes what
`ferdek_framebuffer_get(0, 0)` returns from 0 to 7. -/
theorem draw_changes_other_cell_when_product_wraps :
    (ferdek_window_open State.init sampleHost 65536 65537 "t").2.1 = 1 ∧
    wideSession.fb_width = 65536 ∧ wideSession.fb_height = 65537 ∧
    (0 : Int) ≤ 0 ∧ (0 : Int) < 65536 ∧ (0 : Int) ≤ 65536 ∧ (65536 : Int) < 65537 ∧
    ¬ ((0 : Int) = 0 ∧ (0 : Int) = 65536) ∧
    ferdek_framebuffer_get wideSession 0 0 = some 0 ∧
    ∃ s', ferdek_pixel_draw wideSession 0 65536 7 = some s' ∧
      ferdek_framebuffer_get s' 0 0 = some 7 := by
  obtain ⟨hok, _, _, hfw, hfh, cells, hfb, hlen, hzero⟩ := wideSession_opened
  have hi : wrapInt (wrapInt (65536 * 65536) + 0) = ((0 : Nat) : Int) := by decide
  have hi0 : wrapInt (wrapInt (0 * 65536) + 0) = ((0 : Nat) : Int) := by decide
  have hpos : 0 < cells.length := by rw [hlen]; decide
  have hbefore : ferdek_framebuffer_get wideSession 0 0 = some 0 := by
    rw [get_at_index wideSession 0 0 4 0 cells hfb (by decide) (by rw [hfw]; decide)
      (by decide) (by rw [hfh]; decide) (by rw [hfw]; exact hi0)]
    exact hzero 0 (by decide)
  have hdraw := draw_at_index wideSession 0 65536 7 4 0 cells hfb (by decide)
    (by rw [hfw]; decide) (by decide) (by rw [hfh]; decide) (by rw [hfw]; exact hi) hpos
  have hafter : ferdek_framebuffer_get
      { wideSession with framebuffer := Ptr.block 4 (cells.set 0 (7 % 256)) } 0 0 = some 7 := by
    rw [get_at_index _ 0 0 4 0 (cells.set 0 (7 % 256)) rfl (by decide)
      (by show (0 : Int) < wideSession.fb_width; rw [hfw]; decide) (by decide)
      (by show (0 : Int) < wideSession.fb_height; rw [hfh]; decide)
      (by show wrapInt (wrapInt (0 * wideSession.fb_width) + 0) = ((0 : Nat) : Int)
          rw [hfw]; exact hi0)]
    rw [List.getElem?_set_self hpos]
  exact ⟨hok, hfw, hfh, by decide, by decide, by decide, by decide, by decide, hbefore, _,
    hdraw, hafter⟩

/-- C7 (evaluation at the failing input): on the partially opened state that
`ferdek_window_open` leaves when `XCreateImage` fails, the framebuffer pointer still holds
the block the failed open freed and display, window and drawing context still hold the
handles it released; the first `ferdek_window_close` passes that block to `free` and the
three handles to `XFreeGC`, `XDestroyWindow`, `XCloseDisplay` a second time. -/
theorem close_on_half_open_releases_released :
    (ferdek_window_open State.init hostNoImage 2 2 "t").2.1 = 0 ∧
    halfOpenSession.framebuffer = Ptr.freed 4 ∧
    halfOpenSession.display = 1 ∧ halfOpenSession.window = 2 ∧ halfOpenSession.gc = 3 ∧
    releaseCalls (ferdek_window_open State.init hostNoImage 2 2 "t").2.2
      = [Call.free 4, Call.XFreeGC 1 3, Call.XDestroyWindow 1 2, Call.XCloseDisplay 1] ∧
    (ferdek_window_close halfOpenSession).2
      = [Call.free 4, Call.XFreeGC 1 3, Call.XDestroyWindow 1 2, Call.XCloseDisplay 1,
         Call.printClosed] ∧
    track [] ((ferdek_window_open State.init hostNoImage 2 2 "t").2.2 ++
        (ferdek_window_close halfOpenSession).2) = none := by
  refine ⟨rfl, rfl, rfl, rfl, rfl, by decide, by decide, by decide⟩

end Ferdek
